import Mathlib

/-!
# STM32H7 flash blackbox: shallow embedding and verification

Embedding of `src/blackbox_flash.hpp` (`flash_to_blackbox`) and of
`src/example_blackbox_logger.cpp` (`loop_1ms`, `blackbox_flush_task`).

* `uint32_t` / `size_t` values are natural numbers, reduced modulo `2^32`
  wherever the C++ arithmetic can wrap.
* The function-local `static uint32_t flash_ptr` and the file-level statics
  `log_buffer`, `write_idx`, `commit_idx` are fields of `State`.
* The vendor HAL is an environment: `Hal` fixes what the k-th HAL call returns
  and what the k-th read of the BUSY flag yields; the state counts how many of
  each have happened and records every operation in `trace`, in program order.
* The two `while` loops are not bounded by the source, so they run on fuel:
  `none` means that the fuel ran out before the loop condition became false.
-/

namespace Blackbox

/-- Number of values of a `uint32_t`. -/
def U32 : Nat := 4294967296

/-- The constant `constexpr std::size_t LOG_ENTRY_SIZE = 256;`. -/
def LOG_ENTRY_SIZE : Nat := 256

/-- The constant `constexpr std::size_t LOG_BUFFER_ENTRIES = 64;`. -/
def LOG_BUFFER_ENTRIES : Nat := 64

/-- The two overridable macros of `blackbox_flash.hpp` (`unsigned long`
constants of the 32-bit target). -/
structure Config where
  BLACKBOX_START_ADDR : Nat
  BLACKBOX_SIZE : Nat
  deriving DecidableEq, Repr

/-- The values the header gives when the macros are not overridden:
`0x90000000UL` and `0x01000000UL`. -/
def defaultConfig : Config :=
  { BLACKBOX_START_ADDR := 0x90000000, BLACKBOX_SIZE := 0x01000000 }

/-- The geometry of the scenario in the specification: a region of 8192 bytes. -/
def smallConfig : Config :=
  { BLACKBOX_START_ADDR := 0x90000000, BLACKBOX_SIZE := 8192 }

/-- Modelled from the spec: the return code of the vendor command interface
(`HAL_StatusTypeDef` of `stm32h7xx_hal.h`, which is not among the sources);
section 6 of the spec gives each command a success-or-device-error result. -/
inductive HAL_StatusTypeDef where
  | HAL_OK
  | HAL_ERROR
  | HAL_BUSY
  | HAL_TIMEOUT
  deriving DecidableEq, Repr

/-- Modelled from the spec: the line-mode constants of the vendor header
(`QSPI_INSTRUCTION_1_LINE`, `QSPI_ADDRESS_1_LINE`, `QSPI_DATA_NONE`,
`QSPI_DATA_4_LINES`) and the zero a `= {}` initialiser leaves in a mode field,
kept symbolic because the header is not among the sources. -/
inductive QSPI_Mode where
  | ZERO
  | INSTRUCTION_1_LINE
  | ADDRESS_1_LINE
  | DATA_NONE
  | DATA_4_LINES
  deriving DecidableEq, Repr

/-- The fields of `QSPI_CommandTypeDef` that `flash_to_blackbox` assigns; all
other fields stay zero-initialised (`cmd = {}`) in both commands. -/
structure QSPI_CommandTypeDef where
  InstructionMode : QSPI_Mode
  Instruction : Nat
  AddressMode : QSPI_Mode
  Address : Nat
  DataMode : QSPI_Mode
  NbData : Nat
  deriving DecidableEq, Repr

/-- What the program does to the outside world and to the consumer index, in
program order. -/
inductive Event where
  /-- A call `HAL_QSPI_Command(&hqspi, &cmd, HAL_MAX_DELAY)`. -/
  | command (cmd : QSPI_CommandTypeDef)
  /-- One evaluation of `__HAL_QSPI_GET_FLAG(&hqspi, QSPI_FLAG_BUSY)`. -/
  | busy_poll
  /-- A call `HAL_QSPI_Transmit(&hqspi, data, HAL_MAX_DELAY)`; `data` is the
  buffer the pointer refers to. -/
  | transmit (data : List Nat)
  /-- The store `commit_idx = local_commit;` of `blackbox_flush_task`. -/
  | store_commit (v : Nat)
  deriving DecidableEq, Repr

/-- Modelled from the spec: the device side of the vendor command interface
(section 6: commands return a result, `is_busy` returns a flag).  `status k`
is what the k-th HAL call since boot returns, `busy k` what the k-th read of
the BUSY flag yields. -/
structure Hal where
  status : Nat → HAL_StatusTypeDef
  busy : Nat → Bool

/-- A device on which every command succeeds and the flag is never set. -/
def halOk : Hal := { status := fun _ => .HAL_OK, busy := fun _ => false }

/-- A device whose BUSY flag never clears. -/
def halStuck : Hal := { status := fun _ => .HAL_OK, busy := fun _ => true }

/-- A device on which every command fails. -/
def halFail : Hal := { status := fun _ => .HAL_ERROR, busy := fun _ => false }

/-- The statics of the two translation units plus the interaction history.
`log_buffer j` is the row `log_buffer[j]`; only rows `j < 64` exist in the
C++ array. -/
structure State where
  flash_ptr : Nat
  log_buffer : Nat → List Nat
  write_idx : Nat
  commit_idx : Nat
  hal_calls : Nat
  flag_reads : Nat
  trace : List Event

/-- State at start-up: `flash_ptr = BLACKBOX_START_ADDR`, zero-initialised
statics, nothing issued yet. -/
def init (cfg : Config) : State :=
  { flash_ptr := cfg.BLACKBOX_START_ADDR
    log_buffer := fun _ => List.replicate LOG_ENTRY_SIZE 0
    write_idx := 0
    commit_idx := 0
    hal_calls := 0
    flag_reads := 0
    trace := [] }

/-- The call `HAL_QSPI_Command`: what the device answers and the state after the call. -/
def HAL_QSPI_Command (hal : Hal) (s : State) (cmd : QSPI_CommandTypeDef) :
    HAL_StatusTypeDef × State :=
  (hal.status s.hal_calls,
   { s with hal_calls := s.hal_calls + 1, trace := s.trace ++ [Event.command cmd] })

/-- The call `HAL_QSPI_Transmit`: what the device answers and the state after the call. -/
def HAL_QSPI_Transmit (hal : Hal) (s : State) (data : List Nat) :
    HAL_StatusTypeDef × State :=
  (hal.status s.hal_calls,
   { s with hal_calls := s.hal_calls + 1, trace := s.trace ++ [Event.transmit data] })

/-- The loop `while (__HAL_QSPI_GET_FLAG(&hqspi, QSPI_FLAG_BUSY)) { }` with at
most `fuel` reads of the flag. -/
def waitWhileBusy (hal : Hal) : Nat → State → Option State
  | 0, _ => none
  | fuel + 1, s =>
    let s1 : State :=
      { s with flag_reads := s.flag_reads + 1, trace := s.trace ++ [Event.busy_poll] }
    if hal.busy s.flag_reads then waitWhileBusy hal fuel s1 else some s1

/-- The Sector Erase command of step 2. -/
def eraseCmd (aligned_addr : Nat) : QSPI_CommandTypeDef :=
  { InstructionMode := .INSTRUCTION_1_LINE
    Instruction := 0x20
    AddressMode := .ADDRESS_1_LINE
    Address := aligned_addr
    DataMode := .DATA_NONE
    NbData := 0 }

/-- The Quad Input Page Program command of step 3. -/
def programCmd (flash_ptr len : Nat) : QSPI_CommandTypeDef :=
  { InstructionMode := .INSTRUCTION_1_LINE
    Instruction := 0x32
    AddressMode := .ADDRESS_1_LINE
    Address := flash_ptr
    DataMode := .DATA_4_LINES
    NbData := len % U32 }

/-- Step 4 of `flash_to_blackbox`: `flash_ptr += (uint32_t)len`, then the wrap
test against `BLACKBOX_START_ADDR + BLACKBOX_SIZE` (an `unsigned long` sum). -/
def advance (cfg : Config) (flash_ptr len : Nat) : Nat :=
  let p := (flash_ptr + len % U32) % U32
  if p ≥ (cfg.BLACKBOX_START_ADDR + cfg.BLACKBOX_SIZE) % U32 then
    cfg.BLACKBOX_START_ADDR
  else p

/-- The function `void flash_to_blackbox(const uint8_t* data, std::size_t len) noexcept`.
The HAL results are discarded, as the `(void)` casts do. -/
def flash_to_blackbox (cfg : Config) (hal : Hal) (fuel : Nat) (s : State)
    (data : List Nat) (len : Nat) : Option State :=
  let aligned_addr := s.flash_ptr &&& 0xFFFFFF00
  let erased : Option State :=
    if s.flash_ptr ≠ aligned_addr then
      waitWhileBusy hal fuel (HAL_QSPI_Command hal s (eraseCmd aligned_addr)).2
    else some s
  erased.bind fun s1 =>
    let s2 := (HAL_QSPI_Command hal s1 (programCmd s1.flash_ptr len)).2
    let s3 := (HAL_QSPI_Transmit hal s2 data).2
    some { s3 with flash_ptr := advance cfg s3.flash_ptr len }

/-- The bytes the `for` loop of `loop_1ms` stores into `log_buffer[idx]`:
byte `i` is `(uint8_t)((idx + i) & 0xFF)`. -/
def encodeEntry (idx : Nat) : List Nat :=
  (List.range LOG_ENTRY_SIZE).map fun i => ((idx + i) % U32) &&& 0xFF

/-- The function `void loop_1ms()`. -/
def loop_1ms (s : State) : State :=
  let idx := s.write_idx
  { s with
    log_buffer := fun j => if j = idx then encodeEntry idx else s.log_buffer j
    write_idx := ((idx + 1) % U32) % LOG_BUFFER_ENTRIES }

/-- The `while (local_commit != write_idx)` loop of `blackbox_flush_task`,
with at most `fuel` iterations. -/
def flushLoop (cfg : Config) (hal : Hal) (pollFuel : Nat) :
    Nat → State → Nat → Option State
  | 0, s, local_commit => if local_commit ≠ s.write_idx then none else some s
  | fuel + 1, s, local_commit =>
    if local_commit ≠ s.write_idx then
      (flash_to_blackbox cfg hal pollFuel s (s.log_buffer local_commit) LOG_ENTRY_SIZE).bind
        fun s1 =>
          let local_commit1 := ((local_commit + 1) % U32) % LOG_BUFFER_ENTRIES
          flushLoop cfg hal pollFuel fuel
            { s1 with
              commit_idx := local_commit1
              trace := s1.trace ++ [Event.store_commit local_commit1] }
            local_commit1
    else some s

/-- The function `void blackbox_flush_task()`; `fuel` bounds the iterations of the drain
loop and, in each call of `flash_to_blackbox`, the reads of the BUSY flag. -/
def blackbox_flush_task (cfg : Config) (hal : Hal) (fuel : Nat) (s : State) :
    Option State :=
  flushLoop cfg hal fuel fuel s s.commit_idx

/-! ## Vocabulary of the statements -/

/-- Geometry under which the region arithmetic of `flash_to_blackbox` does not
wrap a `uint32_t`: page-aligned base, a positive whole number of pages, and
the end of the region representable. -/
def Config.WF (cfg : Config) : Prop :=
  cfg.BLACKBOX_START_ADDR % 256 = 0 ∧ cfg.BLACKBOX_SIZE % 256 = 0 ∧
    0 < cfg.BLACKBOX_SIZE ∧ cfg.BLACKBOX_START_ADDR + cfg.BLACKBOX_SIZE < U32

instance (cfg : Config) : Decidable cfg.WF := by
  unfold Config.WF; infer_instance

/-- The cursor offset `flash_ptr - BLACKBOX_START_ADDR` in `uint32_t`
arithmetic. -/
def offset (cfg : Config) (flash_ptr : Nat) : Nat :=
  (flash_ptr + U32 - cfg.BLACKBOX_START_ADDR % U32) % U32

/-- The address reached from cursor `p` by advancing `k` entries of 256 bytes
inside the region, wrapping at its end. -/
def entryAddr (cfg : Config) (p k : Nat) : Nat :=
  cfg.BLACKBOX_START_ADDR + (offset cfg p + 256 * k) % cfg.BLACKBOX_SIZE

/-- A cursor lying in the region at a whole number of 256-byte entries from
its base. -/
def CursorOk (cfg : Config) (p : Nat) : Prop :=
  cfg.BLACKBOX_START_ADDR ≤ p ∧ p < cfg.BLACKBOX_START_ADDR + cfg.BLACKBOX_SIZE ∧
    (p - cfg.BLACKBOX_START_ADDR) % 256 = 0

instance (cfg : Config) (p : Nat) : Decidable (CursorOk cfg p) := by
  unfold CursorOk; infer_instance

/-- A caller that hands the entries `ds` to `flash_to_blackbox` one after the
other, each with `len = 256`. -/
def writeEntries (cfg : Config) (hal : Hal) (fuel : Nat) :
    State → List (List Nat) → Option State
  | s, [] => some s
  | s, d :: ds =>
    (flash_to_blackbox cfg hal fuel s d LOG_ENTRY_SIZE).bind fun s1 =>
      writeEntries cfg hal fuel s1 ds

/-- States the program gets into from start-up by complete calls of its two
entry points. -/
inductive Reachable (cfg : Config) (hal : Hal) : State → Prop where
  | boot : Reachable cfg hal (init cfg)
  | capture {s : State} : Reachable cfg hal s → Reachable cfg hal (loop_1ms s)
  | flush {s s1 : State} (fuel : Nat) : Reachable cfg hal s →
      blackbox_flush_task cfg hal fuel s = some s1 → Reachable cfg hal s1

/-- What a drain of `n` entries does when it starts at cursor `p` with
`local_commit = lc` over the ring rows `buf`: for the k-th entry a page
program at the k-th address after the cursor, the transmit of ring slot
`lc + k`, and the store of the advanced consumer index. -/
def drainFrom (cfg : Config) (buf : Nat → List Nat) (p lc n : Nat) : List Event :=
  (List.range n).flatMap fun k =>
    [ Event.command (programCmd (entryAddr cfg p k) 256),
      Event.transmit (buf ((lc + k) % 64)),
      Event.store_commit ((lc + k + 1) % 64) ]

/-- What one drain of `n` pending entries does, seen from state `s`. -/
def drainEvents (cfg : Config) (s : State) (n : Nat) : List Event :=
  drainFrom cfg s.log_buffer s.flash_ptr s.commit_idx n

/-- Number of entries the ring holds for the consumer:
`(write_idx - commit_idx) mod 64`. -/
def pending (s : State) : Nat :=
  (s.write_idx + 64 - s.commit_idx) % 64

/-- Whether an event is a Quad Input Page Program command. -/
def Event.isProgram : Event → Bool
  | .command cmd => cmd.Instruction == 0x32
  | _ => false

/-- Whether an event is a Sector Erase command. -/
def Event.isErase : Event → Bool
  | .command cmd => cmd.Instruction == 0x20
  | _ => false

/-- What holds of the cursor and of the two ring indices in every state the
program gets into. -/
def Inv (cfg : Config) (s : State) : Prop :=
  CursorOk cfg s.flash_ptr ∧ s.write_idx < 64 ∧ s.commit_idx < 64

/-- The entry captured by the k-th call of `loop_1ms` (k from 0) in a run of
captures that starts in `s`: the row that call has just filled. -/
def capturedEntry (s : State) (k : Nat) : List Nat :=
  (loop_1ms^[k + 1] s).log_buffer (loop_1ms^[k] s).write_idx

/-- A caller that makes the calls `flash_to_blackbox(data, len)` of the list
one after the other, each with its own `len`. -/
def writeAll (cfg : Config) (hal : Hal) (fuel : Nat) :
    State → List (List Nat × Nat) → Option State
  | s, [] => some s
  | s, c :: cs =>
    (flash_to_blackbox cfg hal fuel s c.1 c.2).bind fun s1 => writeAll cfg hal fuel s1 cs

/-- Whether an event is the store of the consumer index that ends an iteration
of the drain loop. -/
def Event.isStore : Event → Bool
  | .store_commit _ => true
  | _ => false

/-- The events a call puts in front of its page program when the cursor is
`p`: nothing on a page-aligned cursor, otherwise the Sector Erase of the page
base followed by `r + 1` reads of the BUSY flag. -/
def erasePrefix (p r : Nat) : List Event :=
  if p % 256 = 0 then []
  else Event.command (eraseCmd (p &&& 0xFFFFFF00)) :: List.replicate (r + 1) Event.busy_poll

/-- The indices at which the drain loop reads `log_buffer[local_commit]`, in
order, for a run of at most `fuel` iterations (up to the first call of
`flash_to_blackbox` that does not return, if there is one). -/
def flushReads (cfg : Config) (hal : Hal) (pollFuel : Nat) :
    Nat → State → Nat → List Nat
  | 0, _, _ => []
  | fuel + 1, s, local_commit =>
    if local_commit ≠ s.write_idx then
      local_commit ::
        (match flash_to_blackbox cfg hal pollFuel s (s.log_buffer local_commit)
            LOG_ENTRY_SIZE with
          | none => []
          | some s1 =>
            let local_commit1 := ((local_commit + 1) % U32) % LOG_BUFFER_ENTRIES
            flushReads cfg hal pollFuel fuel
              { s1 with
                commit_idx := local_commit1
                trace := s1.trace ++ [Event.store_commit local_commit1] }
              local_commit1)
    else []

/-- The state a first call with `len = 1` leaves the cursor in, the history
put aside: start-up with the cursor one byte into the first page. -/
def offPageState : State :=
  { init defaultConfig with flash_ptr := 0x90000001 }

/-- The state `offPageState` with one entry pending in the ring:
`commit_idx = 0`, `write_idx = 1`. -/
def hangState : State :=
  { offPageState with write_idx := 1 }

/-- A history without any Sector Erase and without any read of the BUSY flag. -/
def Quiet (s : State) : Prop :=
  s.flag_reads = 0 ∧ ∀ e ∈ s.trace, e.isErase = false ∧ e ≠ Event.busy_poll

/-! ## Arithmetic of the cursor -/

theorem land_mask (p : Nat) (hp : p < U32) : p &&& 0xFFFFFF00 = p / 256 * 256 := by
  apply Nat.eq_of_testBit_eq
  intro i
  have h1 : (0xFFFFFF00 : Nat) = (2 ^ 24 - 1) <<< 8 := by decide
  have h2 : p / 256 * 256 = (p >>> 8) <<< 8 := by
    rw [Nat.shiftLeft_eq, Nat.shiftRight_eq_div_pow]
  rw [Nat.testBit_land, h1, h2, Nat.testBit_shiftLeft, Nat.testBit_shiftLeft,
    Nat.testBit_two_pow_sub_one, Nat.testBit_shiftRight]
  by_cases h8 : 8 ≤ i
  · by_cases h32 : i - 8 < 24
    · simp [h8, h32]
    · have hi : p.testBit i = false := by
        apply Nat.testBit_lt_two_pow
        calc p < 2 ^ 32 := hp
          _ ≤ 2 ^ i := Nat.pow_le_pow_right (by decide) (by omega)
      have e : 8 + (i - 8) = i := by omega
      simp [h8, h32, hi, e]
  · simp [h8]

theorem aligned_iff (p : Nat) (hp : p < U32) :
    p ≠ p &&& 0xFFFFFF00 ↔ p % 256 ≠ 0 := by
  rw [land_mask p hp]
  omega

theorem offset_eq (cfg : Config) (hw : cfg.WF) (p : Nat)
    (h1 : cfg.BLACKBOX_START_ADDR ≤ p) (h2 : p < cfg.BLACKBOX_START_ADDR + cfg.BLACKBOX_SIZE) :
    offset cfg p = p - cfg.BLACKBOX_START_ADDR := by
  obtain ⟨_, _, _, h⟩ := hw
  unfold offset
  unfold U32 at *
  omega

theorem advance_ok (cfg : Config) (hw : cfg.WF) (p : Nat) (hc : CursorOk cfg p) :
    advance cfg p 256 = entryAddr cfg p 1 ∧ CursorOk cfg (advance cfg p 256) := by
  obtain ⟨ha, hs, hpos, hend⟩ := hw
  obtain ⟨h1, h2, h3⟩ := hc
  have ho := offset_eq cfg ⟨ha, hs, hpos, hend⟩ p h1 h2
  unfold entryAddr advance CursorOk
  rw [ho]
  unfold U32 at *
  simp only []
  have hle : p - cfg.BLACKBOX_START_ADDR + 256 ≤ cfg.BLACKBOX_SIZE := by omega
  rcases Nat.lt_or_ge (p + 256) (cfg.BLACKBOX_START_ADDR + cfg.BLACKBOX_SIZE) with hlt | hge
  · have e : (p - cfg.BLACKBOX_START_ADDR + 256 * 1) % cfg.BLACKBOX_SIZE
        = p - cfg.BLACKBOX_START_ADDR + 256 := by
      rw [Nat.mod_eq_of_lt]; omega
    rw [e]
    have e1 : (p + 256 % 4294967296) % 4294967296 = p + 256 := by omega
    have e2 : (cfg.BLACKBOX_START_ADDR + cfg.BLACKBOX_SIZE) % 4294967296
        = cfg.BLACKBOX_START_ADDR + cfg.BLACKBOX_SIZE := by omega
    rw [e1, e2]
    rw [if_neg (by omega)]
    omega
  · have e : (p - cfg.BLACKBOX_START_ADDR + 256 * 1) % cfg.BLACKBOX_SIZE = 0 := by
      have : p - cfg.BLACKBOX_START_ADDR + 256 * 1 = cfg.BLACKBOX_SIZE := by omega
      rw [this, Nat.mod_self]
    rw [e]
    have e1 : (p + 256 % 4294967296) % 4294967296 = p + 256 := by omega
    have e2 : (cfg.BLACKBOX_START_ADDR + cfg.BLACKBOX_SIZE) % 4294967296
        = cfg.BLACKBOX_START_ADDR + cfg.BLACKBOX_SIZE := by omega
    rw [e1, e2]
    rw [if_pos (by omega)]
    omega

/-! ## One call of `flash_to_blackbox` -/

theorem flash_aligned (cfg : Config) (hal : Hal) (fuel : Nat) (s : State)
    (data : List Nat) (len : Nat) (hp : s.flash_ptr < U32) (ha : s.flash_ptr % 256 = 0) :
    flash_to_blackbox cfg hal fuel s data len =
      some { s with
        flash_ptr := advance cfg s.flash_ptr len
        hal_calls := s.hal_calls + 2
        trace := s.trace ++ [Event.command (programCmd s.flash_ptr len), Event.transmit data] } := by
  have h : ¬ (s.flash_ptr ≠ s.flash_ptr &&& 0xFFFFFF00) := by
    rw [aligned_iff _ hp]; omega
  unfold flash_to_blackbox
  simp only [h, if_false, Option.some_bind, HAL_QSPI_Command, HAL_QSPI_Transmit,
    List.append_assoc, List.singleton_append]

theorem waitWhileBusy_clears (hal : Hal) :
    ∀ (m fuel : Nat) (s : State), m < fuel → hal.busy (s.flag_reads + m) = false →
      ∃ r, r ≤ m ∧ waitWhileBusy hal fuel s =
        some { s with
          flag_reads := s.flag_reads + (r + 1)
          trace := s.trace ++ List.replicate (r + 1) Event.busy_poll } := by
  intro m
  induction m with
  | zero =>
    intro fuel s hf hb
    obtain ⟨f, rfl⟩ : ∃ f, fuel = f + 1 := ⟨fuel - 1, by omega⟩
    refine ⟨0, le_refl _, ?_⟩
    simp only [Nat.add_zero] at hb
    simp [waitWhileBusy, hb]
  | succ m ih =>
    intro fuel s hf hb
    obtain ⟨f, rfl⟩ : ∃ f, fuel = f + 1 := ⟨fuel - 1, by omega⟩
    by_cases h0 : hal.busy s.flag_reads = true
    · have hb1 : hal.busy (s.flag_reads + 1 + m) = false := by
        rw [← hb]; congr 1; omega
      obtain ⟨r, hr, hres⟩ := ih f
        { s with flag_reads := s.flag_reads + 1, trace := s.trace ++ [Event.busy_poll] }
        (by omega) hb1
      refine ⟨r + 1, by omega, ?_⟩
      simp only [waitWhileBusy, h0, if_true]
      rw [hres]
      simp only [List.append_assoc, List.singleton_append, ← List.replicate_succ,
        Nat.add_assoc]
      have e : 1 + (r + 1) = r + 1 + 1 := by omega
      rw [e]
    · refine ⟨0, Nat.zero_le _, ?_⟩
      simp [waitWhileBusy, h0]

theorem flash_unaligned (cfg : Config) (hal : Hal) (fuel : Nat) (s : State)
    (data : List Nat) (len : Nat) (hp : s.flash_ptr < U32) (ha : s.flash_ptr % 256 ≠ 0)
    (m : Nat) (hm : m < fuel) (hb : hal.busy (s.flag_reads + m) = false) :
    ∃ r, r ≤ m ∧ flash_to_blackbox cfg hal fuel s data len =
      some { s with
        flash_ptr := advance cfg s.flash_ptr len
        hal_calls := s.hal_calls + 3
        flag_reads := s.flag_reads + (r + 1)
        trace := s.trace ++
          (Event.command (eraseCmd (s.flash_ptr &&& 0xFFFFFF00)) ::
            List.replicate (r + 1) Event.busy_poll) ++
          [Event.command (programCmd s.flash_ptr len), Event.transmit data] } := by
  have h : s.flash_ptr ≠ s.flash_ptr &&& 0xFFFFFF00 := (aligned_iff _ hp).2 ha
  obtain ⟨r, hr, hres⟩ := waitWhileBusy_clears hal m fuel
    (HAL_QSPI_Command hal s (eraseCmd (s.flash_ptr &&& 0xFFFFFF00))).2 hm hb
  refine ⟨r, hr, ?_⟩
  unfold flash_to_blackbox
  simp only [h, ne_eq, not_false_eq_true, if_true]
  rw [hres]
  simp only [Option.some_bind, HAL_QSPI_Command, HAL_QSPI_Transmit, List.append_assoc,
    List.singleton_append, List.cons_append, List.nil_append, Nat.add_assoc]

theorem waitWhileBusy_status (hal hal2 : Hal) (hb : hal.busy = hal2.busy) :
    ∀ (fuel : Nat) (s : State), waitWhileBusy hal fuel s = waitWhileBusy hal2 fuel s := by
  intro fuel
  induction fuel with
  | zero => intro s; rfl
  | succ f ih =>
    intro s
    simp only [waitWhileBusy, hb, ih]

theorem flash_status (cfg : Config) (hal hal2 : Hal) (hb : hal.busy = hal2.busy)
    (fuel : Nat) (s : State) (data : List Nat) (len : Nat) :
    flash_to_blackbox cfg hal fuel s data len = flash_to_blackbox cfg hal2 fuel s data len := by
  unfold flash_to_blackbox
  simp only [HAL_QSPI_Command, HAL_QSPI_Transmit, waitWhileBusy_status hal hal2 hb]

/-! ## The drain loop -/

theorem entryAddr_zero (cfg : Config) (hw : cfg.WF) (p : Nat) (hc : CursorOk cfg p) :
    entryAddr cfg p 0 = p := by
  obtain ⟨h1, h2, _⟩ := hc
  unfold entryAddr
  rw [offset_eq cfg hw p h1 h2, Nat.mul_zero, Nat.add_zero, Nat.mod_eq_of_lt (by omega)]
  omega

theorem entryAddr_advance (cfg : Config) (hw : cfg.WF) (p : Nat) (hc : CursorOk cfg p)
    (k : Nat) : entryAddr cfg (advance cfg p 256) k = entryAddr cfg p (k + 1) := by
  obtain ⟨hadv, hc2⟩ := advance_ok cfg hw p hc
  have ho : offset cfg (advance cfg p 256) = (offset cfg p + 256 * 1) % cfg.BLACKBOX_SIZE := by
    rw [offset_eq cfg hw _ hc2.1 hc2.2.1, hadv]
    unfold entryAddr
    omega
  unfold entryAddr
  rw [ho, Nat.mod_add_mod]
  congr 2
  ring

theorem drainFrom_succ (cfg : Config) (hw : cfg.WF) (buf : Nat → List Nat) (p lc n : Nat)
    (hc : CursorOk cfg p) :
    drainFrom cfg buf p lc (n + 1) =
      [ Event.command (programCmd p 256), Event.transmit (buf (lc % 64)),
        Event.store_commit ((lc + 1) % 64) ] ++
      drainFrom cfg buf (advance cfg p 256) ((lc + 1) % 64) n := by
  unfold drainFrom
  rw [List.range_succ_eq_map, List.flatMap_cons, List.flatMap_map]
  simp only [Nat.add_zero, entryAddr_zero cfg hw p hc]
  congr 1
  apply List.flatMap_congr
  intro k _
  rw [entryAddr_advance cfg hw p hc k]
  have e1 : ((lc + 1) % 64 + k) % 64 = (lc + k.succ) % 64 := by omega
  have e2 : ((lc + 1) % 64 + k + 1) % 64 = (lc + k.succ + 1) % 64 := by omega
  rw [e1, e2]

theorem flushLoop_spec (cfg : Config) (hal : Hal) (pf : Nat) (hw : cfg.WF) :
    ∀ (n fuel : Nat) (s : State) (lc : Nat), CursorOk cfg s.flash_ptr → lc < 64 →
      s.write_idx < 64 → (s.write_idx + 64 - lc) % 64 = n → n ≤ fuel →
      flushLoop cfg hal pf fuel s lc =
        some { s with
          flash_ptr := entryAddr cfg s.flash_ptr n
          commit_idx := if n = 0 then s.commit_idx else s.write_idx
          hal_calls := s.hal_calls + 2 * n
          trace := s.trace ++ drainFrom cfg s.log_buffer s.flash_ptr lc n } := by
  intro n
  induction n with
  | zero =>
    intro fuel s lc hc hlc hwi hn _
    have e : lc = s.write_idx := by omega
    have hres : flushLoop cfg hal pf fuel s lc = some s := by
      cases fuel <;> simp [flushLoop, e]
    rw [hres, entryAddr_zero cfg hw _ hc]
    simp [drainFrom]
  | succ n ih =>
    intro fuel s lc hc hlc hwi hn hf
    obtain ⟨f, rfl⟩ : ∃ f, fuel = f + 1 := ⟨fuel - 1, by omega⟩
    have hne : lc ≠ s.write_idx := by omega
    have hp : s.flash_ptr < U32 := by
      have := hw.2.2.2
      have := hc.2.1
      omega
    have ha : s.flash_ptr % 256 = 0 := by
      have := hw.1
      have := hc.1
      have := hc.2.2
      omega
    obtain ⟨_, hc2⟩ := advance_ok cfg hw _ hc
    have hlc1 : ((lc + 1) % U32) % LOG_BUFFER_ENTRIES = (lc + 1) % 64 := by
      unfold U32 LOG_BUFFER_ENTRIES; omega
    simp only [flushLoop, hne, ne_eq, not_false_eq_true, if_true, LOG_ENTRY_SIZE]
    rw [flash_aligned cfg hal pf s _ 256 hp ha, Option.some_bind, hlc1]
    dsimp only
    have hstep := ih f
      { flash_ptr := advance cfg s.flash_ptr 256, log_buffer := s.log_buffer,
        write_idx := s.write_idx, commit_idx := (lc + 1) % 64,
        hal_calls := s.hal_calls + 2, flag_reads := s.flag_reads,
        trace := s.trace ++ [Event.command (programCmd s.flash_ptr 256),
          Event.transmit (s.log_buffer lc)] ++ [Event.store_commit ((lc + 1) % 64)] }
      ((lc + 1) % 64) hc2 (by omega) hwi (by dsimp only; omega) (by omega)
    rw [hstep]
    rw [drainFrom_succ cfg hw _ _ _ _ hc]
    simp only [entryAddr_advance cfg hw _ hc, Nat.succ_ne_zero, if_false, List.append_assoc,
      List.cons_append, List.nil_append, Option.some.injEq, State.mk.injEq, true_and]
    have elc : lc % 64 = lc := Nat.mod_eq_of_lt hlc
    rw [elc]
    refine ⟨?_, ?_, ?_⟩
    · split
      · omega
      · rfl
    · omega
    · trivial

theorem flushLoop_inv (cfg : Config) (hal : Hal) (pf : Nat) (hw : cfg.WF) :
    ∀ (fuel : Nat) (s : State) (lc : Nat) (s1 : State), Inv cfg s → lc < 64 →
      flushLoop cfg hal pf fuel s lc = some s1 → Inv cfg s1 := by
  intro fuel
  induction fuel with
  | zero =>
    intro s lc s1 hi _ h
    by_cases e : lc = s.write_idx
    · simp [flushLoop, e] at h
      rw [← h]; exact hi
    · simp [flushLoop, e] at h
  | succ f ih =>
    intro s lc s1 hi hlc h
    by_cases e : lc = s.write_idx
    · simp [flushLoop, e] at h
      rw [← h]; exact hi
    · obtain ⟨hc, hwi, hci⟩ := hi
      have hp : s.flash_ptr < U32 := by
        have := hw.2.2.2
        have := hc.2.1
        omega
      have ha : s.flash_ptr % 256 = 0 := by
        have := hw.1
        have := hc.1
        have := hc.2.2
        omega
      obtain ⟨_, hc2⟩ := advance_ok cfg hw _ hc
      have hlc1 : ((lc + 1) % U32) % LOG_BUFFER_ENTRIES = (lc + 1) % 64 := by
        unfold U32 LOG_BUFFER_ENTRIES; omega
      simp only [flushLoop, e, ne_eq, not_false_eq_true, if_true, LOG_ENTRY_SIZE] at h
      rw [flash_aligned cfg hal pf s _ 256 hp ha, Option.some_bind, hlc1] at h
      dsimp only at h
      refine ih _ ((lc + 1) % 64) s1 ?_ (by omega) h
      refine ⟨hc2, hwi, ?_⟩
      dsimp only
      omega

/-! ## Captures -/

theorem loop_1ms_frame (N : Nat) (s : State) (hwi : s.write_idx < 64) :
    (loop_1ms^[N] s).write_idx = (s.write_idx + N) % 64 ∧
      (loop_1ms^[N] s).flash_ptr = s.flash_ptr ∧
      (loop_1ms^[N] s).commit_idx = s.commit_idx ∧
      (loop_1ms^[N] s).hal_calls = s.hal_calls ∧
      (loop_1ms^[N] s).flag_reads = s.flag_reads ∧
      (loop_1ms^[N] s).trace = s.trace := by
  induction N with
  | zero =>
    refine ⟨?_, rfl, rfl, rfl, rfl, rfl⟩
    simp only [Function.iterate_zero, id_eq, Nat.add_zero]
    omega
  | succ N ih =>
    obtain ⟨h1, h2, h3, h4, h5, h6⟩ := ih
    rw [Function.iterate_succ_apply']
    refine ⟨?_, h2, h3, h4, h5, h6⟩
    show (((loop_1ms^[N] s).write_idx + 1) % U32) % LOG_BUFFER_ENTRIES = _
    rw [h1]
    unfold U32 LOG_BUFFER_ENTRIES
    omega

theorem loop_1ms_rows (N : Nat) (s : State) (hwi : s.write_idx < 64) :
    ∀ k, k < N → (loop_1ms^[N] s).log_buffer ((s.write_idx + k) % 64) =
      encodeEntry ((s.write_idx + k) % 64) := by
  induction N with
  | zero => intro k hk; omega
  | succ N ih =>
    intro k hk
    rw [Function.iterate_succ_apply']
    have h1 := (loop_1ms_frame N s hwi).1
    show (if (s.write_idx + k) % 64 = (loop_1ms^[N] s).write_idx then
        encodeEntry (loop_1ms^[N] s).write_idx
      else (loop_1ms^[N] s).log_buffer ((s.write_idx + k) % 64)) = _
    rw [h1]
    by_cases e : (s.write_idx + k) % 64 = (s.write_idx + N) % 64
    · rw [if_pos e, e]
    · rw [if_neg e]
      apply ih
      rcases Nat.lt_or_ge k N with h | h
      · exact h
      · exfalso
        have : k = N := by omega
        exact e (by rw [this])

theorem capturedEntry_eq (s : State) (hwi : s.write_idx < 64) (k : Nat) :
    capturedEntry s k = encodeEntry ((s.write_idx + k) % 64) := by
  unfold capturedEntry
  rw [(loop_1ms_frame k s hwi).1]
  exact loop_1ms_rows (k + 1) s hwi k (Nat.lt_succ_self k)

theorem reachable_inv (cfg : Config) (hal : Hal) (hw : cfg.WF) (s : State)
    (hr : Reachable cfg hal s) : Inv cfg s := by
  induction hr with
  | boot =>
    obtain ⟨h1, h2, h3, h4⟩ := hw
    refine ⟨⟨le_refl _, ?_, ?_⟩, ?_, ?_⟩
    all_goals simp [init]
    all_goals omega
  | capture _ ih =>
    obtain ⟨hc, hwi, hci⟩ := ih
    have h := loop_1ms_frame 1 _ hwi
    simp only [Function.iterate_one] at h
    obtain ⟨h1, h2, h3, _⟩ := h
    refine ⟨by rw [h2]; exact hc, by rw [h1]; omega, by rw [h3]; exact hci⟩
  | flush fuel _ hf ih =>
    exact flushLoop_inv cfg hal fuel hw fuel _ _ _ ih ih.2.2 hf

/-! ## One call of `blackbox_flush_task` -/

theorem flush_spec (cfg : Config) (hal : Hal) (hw : cfg.WF) (s : State) (hi : Inv cfg s)
    (fuel : Nat) (hf : pending s ≤ fuel) :
    blackbox_flush_task cfg hal fuel s =
      some { s with
        flash_ptr := entryAddr cfg s.flash_ptr (pending s)
        commit_idx := s.write_idx
        hal_calls := s.hal_calls + 2 * pending s
        trace := s.trace ++ drainEvents cfg s (pending s) } := by
  obtain ⟨hc, hwi, hci⟩ := hi
  unfold blackbox_flush_task
  rw [flushLoop_spec cfg hal fuel hw (pending s) fuel s s.commit_idx hc hci hwi rfl hf]
  unfold drainEvents
  by_cases h0 : pending s = 0
  · have e : s.commit_idx = s.write_idx := by unfold pending at h0; omega
    rw [if_pos h0, e]
  · rw [if_neg h0]

theorem flush_after_captures (cfg : Config) (hal : Hal) (hw : cfg.WF) (s : State)
    (hi : Inv cfg s) (he : s.commit_idx = s.write_idx) (N fuel : Nat) (hf : N % 64 ≤ fuel) :
    blackbox_flush_task cfg hal fuel (loop_1ms^[N] s) =
      some { (loop_1ms^[N] s) with
        flash_ptr := entryAddr cfg s.flash_ptr (N % 64)
        commit_idx := (s.write_idx + N) % 64
        hal_calls := s.hal_calls + 2 * (N % 64)
        trace := s.trace ++ drainFrom cfg encodeEntry s.flash_ptr s.commit_idx (N % 64) } := by
  obtain ⟨hc, hwi, hci⟩ := hi
  obtain ⟨h1, h2, h3, h4, h5, h6⟩ := loop_1ms_frame N s hwi
  have hi : Inv cfg (loop_1ms^[N] s) :=
    ⟨by rw [h2]; exact hc, by rw [h1]; omega, by rw [h3]; exact hci⟩
  have hp : pending (loop_1ms^[N] s) = N % 64 := by
    unfold pending; rw [h1, h3, he]; omega
  rw [flush_spec cfg hal hw _ hi fuel (by rw [hp]; exact hf), hp, h1, h2, h4, h6]
  have ht : drainEvents cfg (loop_1ms^[N] s) (N % 64)
      = drainFrom cfg encodeEntry s.flash_ptr s.commit_idx (N % 64) := by
    unfold drainEvents drainFrom
    rw [h2, h3]
    apply List.flatMap_congr
    intro k hk
    have hk : k < N % 64 := List.mem_range.1 hk
    have hkN : k < N := lt_of_lt_of_le hk (Nat.mod_le N 64)
    rw [he, loop_1ms_rows N s hwi k hkN]
  rw [ht]
  dsimp only
  rw [h1]

/-! ## Sequences of direct calls -/

theorem cursorOk_facts (cfg : Config) (hw : cfg.WF) (p : Nat) (hc : CursorOk cfg p) :
    p < U32 ∧ p % 256 = 0 := by
  obtain ⟨h1, _, _, h4⟩ := hw
  obtain ⟨h5, h6, h7⟩ := hc
  constructor <;> omega

theorem writeEntries_spec (cfg : Config) (hal : Hal) (fuel : Nat) (hw : cfg.WF) :
    ∀ (ds : List (List Nat)) (s : State), CursorOk cfg s.flash_ptr →
      ∃ s1, writeEntries cfg hal fuel s ds = some s1 ∧
        s1.flash_ptr = entryAddr cfg s.flash_ptr ds.length ∧ CursorOk cfg s1.flash_ptr := by
  intro ds
  induction ds with
  | nil =>
    intro s hc
    exact ⟨s, rfl, (entryAddr_zero cfg hw _ hc).symm, hc⟩
  | cons d ds ih =>
    intro s hc
    obtain ⟨hp, ha⟩ := cursorOk_facts cfg hw _ hc
    obtain ⟨_, hc2⟩ := advance_ok cfg hw _ hc
    obtain ⟨s1, h1, h2, h3⟩ := ih
      { s with
        flash_ptr := advance cfg s.flash_ptr 256
        hal_calls := s.hal_calls + 2
        trace := s.trace ++ [Event.command (programCmd s.flash_ptr 256), Event.transmit d] }
      hc2
    refine ⟨s1, ?_, ?_, h3⟩
    · simp only [writeEntries, LOG_ENTRY_SIZE]
      rw [flash_aligned cfg hal fuel s d 256 hp ha, Option.some_bind]
      exact h1
    · rw [h2]
      exact entryAddr_advance cfg hw _ hc ds.length

theorem init_cursorOk (cfg : Config) (hw : cfg.WF) : CursorOk cfg (init cfg).flash_ptr := by
  obtain ⟨h1, h2, h3, h4⟩ := hw
  refine ⟨le_refl _, ?_, ?_⟩
  all_goals simp [init]
  all_goals omega

theorem flush_idle (cfg : Config) (hal : Hal) (fuel : Nat) (s : State)
    (he : s.commit_idx = s.write_idx) : blackbox_flush_task cfg hal fuel s = some s := by
  unfold blackbox_flush_task
  cases fuel <;> simp [flushLoop, he]

theorem flush_status (cfg : Config) (hal hal2 : Hal) (hb : hal.busy = hal2.busy)
    (pf : Nat) : ∀ (fuel : Nat) (s : State) (lc : Nat),
      flushLoop cfg hal pf fuel s lc = flushLoop cfg hal2 pf fuel s lc := by
  intro fuel
  induction fuel with
  | zero => intro s lc; rfl
  | succ f ih =>
    intro s lc
    simp only [flushLoop, flash_status cfg hal hal2 hb, ih]

/-! ## The claims -/

/-- C1, at the bound the claim allows: after 64 captures from the empty ring at
start-up the write index is back on the commit index, and the flush issues no
command at all instead of 64 page programs. -/
theorem full_ring_flush_issues_nothing :
    (init defaultConfig).commit_idx = (init defaultConfig).write_idx ∧
      64 ≤ LOG_BUFFER_ENTRIES ∧
      (blackbox_flush_task defaultConfig halOk 64 (loop_1ms^[64] (init defaultConfig))).map
        State.trace = some [] := by
  refine ⟨rfl, by decide, ?_⟩
  rw [flush_after_captures defaultConfig halOk (by decide) (init defaultConfig)
    (reachable_inv _ halOk (by decide) _ Reachable.boot) rfl 64 64 (by decide)]
  simp [drainFrom, init]

/-- C1, amended to N ≤ 63: from every reachable state with an empty ring, N
calls of `loop_1ms` followed by one `blackbox_flush_task` make the flush return
having issued exactly N page programs of 256 bytes and no erase, the k-th at
the address k entries after the cursor the sequence started with (wrapping in
the region) and followed by the transmit of the k-th captured entry. -/
theorem captures_then_flush_in_order (cfg : Config) (hal : Hal) (hw : cfg.WF) (s : State)
    (hr : Reachable cfg hal s) (he : s.commit_idx = s.write_idx) (N : Nat) (hN : N ≤ 63)
    (fuel : Nat) (hf : N ≤ fuel) :
    ∃ s1, blackbox_flush_task cfg hal fuel (loop_1ms^[N] s) = some s1 ∧
      s1.trace = s.trace ++ (List.range N).flatMap (fun k =>
        [ Event.command (programCmd (entryAddr cfg s.flash_ptr k) 256),
          Event.transmit (capturedEntry s k),
          Event.store_commit ((s.commit_idx + k + 1) % 64) ]) := by
  have hi := reachable_inv cfg hal hw s hr
  have hN64 : N % 64 = N := Nat.mod_eq_of_lt (by omega)
  refine ⟨_, flush_after_captures cfg hal hw s hi he N fuel (by rw [hN64]; exact hf), ?_⟩
  dsimp only
  rw [hN64]
  congr 1
  unfold drainFrom
  apply List.flatMap_congr
  intro k _
  rw [capturedEntry_eq s hi.2.1 k, he]

/-- C1, the amended statement at start-up with the default region and three
captures. -/
theorem captures_then_flush_in_order_witness :
    ∃ s1, blackbox_flush_task defaultConfig halOk 3 (loop_1ms^[3] (init defaultConfig)) = some s1 ∧
      s1.trace = (init defaultConfig).trace ++ (List.range 3).flatMap (fun k =>
        [ Event.command (programCmd (entryAddr defaultConfig (init defaultConfig).flash_ptr k) 256),
          Event.transmit (capturedEntry (init defaultConfig) k),
          Event.store_commit (((init defaultConfig).commit_idx + k + 1) % 64) ]) :=
  captures_then_flush_in_order defaultConfig halOk (by decide) (init defaultConfig)
    Reachable.boot rfl 3 (by decide) 3 (by decide)

/-- C2, the code at the failing input: the first 256-byte write after start-up
goes to offset 0 of the region, the first address of an erase block not entered
before, and the call returns having issued the page program and the transmit
only, with no Sector Erase before them. -/
theorem first_write_issues_no_erase (hal : Hal) (fuel : Nat) (data : List Nat) :
    offset defaultConfig (init defaultConfig).flash_ptr % 4096 = 0 ∧
      ∃ s1, flash_to_blackbox defaultConfig hal fuel (init defaultConfig) data 256 = some s1 ∧
        s1.trace = [Event.command (programCmd 0x90000000 256), Event.transmit data] ∧
        s1.trace.any Event.isErase = false := by
  refine ⟨by decide, ?_⟩
  rw [flash_aligned defaultConfig hal fuel (init defaultConfig) data 256 (by decide) (by decide)]
  exact ⟨_, rfl, rfl, rfl⟩

/-- C3: after every finite sequence of 256-byte calls of `flash_to_blackbox`
from the initial state the calls have all returned and the cursor offset
`flash_ptr - BLACKBOX_START_ADDR`, taken in 32-bit arithmetic, is a multiple of
256 and less than `BLACKBOX_SIZE`. -/
theorem cursor_offset_aligned_in_region (cfg : Config) (hal : Hal) (fuel : Nat)
    (hw : cfg.WF) (ds : List (List Nat)) :
    ∃ s1, writeEntries cfg hal fuel (init cfg) ds = some s1 ∧
      offset cfg s1.flash_ptr % 256 = 0 ∧ offset cfg s1.flash_ptr < cfg.BLACKBOX_SIZE := by
  obtain ⟨s1, h1, _, hc⟩ := writeEntries_spec cfg hal fuel hw ds (init cfg) (init_cursorOk cfg hw)
  refine ⟨s1, h1, ?_⟩
  rw [offset_eq cfg hw _ hc.1 hc.2.1]
  obtain ⟨h5, h6, h7⟩ := hc
  constructor <;> omega

/-- C3 at the default region, after three entries. -/
theorem cursor_offset_aligned_in_region_witness :
    ∃ s1, writeEntries defaultConfig halOk 0 (init defaultConfig)
        [encodeEntry 0, encodeEntry 1, encodeEntry 2] = some s1 ∧
      offset defaultConfig s1.flash_ptr % 256 = 0 ∧
      offset defaultConfig s1.flash_ptr < defaultConfig.BLACKBOX_SIZE :=
  cursor_offset_aligned_in_region defaultConfig halOk 0 (by decide)
    [encodeEntry 0, encodeEntry 1, encodeEntry 2]

/-- C5: from every cursor reached by 256-byte writes from the initial state,
any `BLACKBOX_SIZE / 256` further 256-byte calls of `flash_to_blackbox` return
with `flash_ptr` back at that cursor, and any smaller positive number of such
calls returns with `flash_ptr` elsewhere. -/
theorem full_circle_wrap (cfg : Config) (hal : Hal) (fuel : Nat) (hw : cfg.WF)
    (ds : List (List Nat)) (s : State)
    (hs : writeEntries cfg hal fuel (init cfg) ds = some s) :
    (∀ es : List (List Nat), es.length = cfg.BLACKBOX_SIZE / 256 →
        ∃ s1, writeEntries cfg hal fuel s es = some s1 ∧ s1.flash_ptr = s.flash_ptr) ∧
      (∀ es : List (List Nat), 0 < es.length → es.length < cfg.BLACKBOX_SIZE / 256 →
        ∃ s1, writeEntries cfg hal fuel s es = some s1 ∧ s1.flash_ptr ≠ s.flash_ptr) := by
  obtain ⟨s0, h0, _, hc⟩ := writeEntries_spec cfg hal fuel hw ds (init cfg) (init_cursorOk cfg hw)
  rw [hs] at h0
  cases h0
  have ho := offset_eq cfg hw _ hc.1 hc.2.1
  obtain ⟨hc1, hc2, hc3⟩ := hc
  obtain ⟨hw1, hw2, hw3, hw4⟩ := hw
  have hw : cfg.WF := ⟨hw1, hw2, hw3, hw4⟩
  constructor
  · intro es hes
    obtain ⟨s1, h1, h2, _⟩ := writeEntries_spec cfg hal fuel hw es s ⟨hc1, hc2, hc3⟩
    refine ⟨s1, h1, ?_⟩
    rw [h2]
    unfold entryAddr
    rw [ho, hes]
    have e : 256 * (cfg.BLACKBOX_SIZE / 256) = cfg.BLACKBOX_SIZE := by omega
    rw [e, Nat.add_mod_right, Nat.mod_eq_of_lt (by omega)]
    omega
  · intro es hpos hlt
    obtain ⟨s1, h1, h2, _⟩ := writeEntries_spec cfg hal fuel hw es s ⟨hc1, hc2, hc3⟩
    refine ⟨s1, h1, ?_⟩
    rw [h2]
    unfold entryAddr
    rw [ho]
    have hsmall : 256 * es.length < cfg.BLACKBOX_SIZE := by omega
    rcases Nat.lt_or_ge (s.flash_ptr - cfg.BLACKBOX_START_ADDR + 256 * es.length)
        cfg.BLACKBOX_SIZE with h | h
    · rw [Nat.mod_eq_of_lt h]
      omega
    · rw [Nat.mod_eq_sub_mod h, Nat.mod_eq_of_lt (by omega)]
      omega

/-- C5 on the 8192-byte region of the scenario: 32 entries from start-up bring
the cursor back to offset 0. -/
theorem full_circle_wrap_witness :
    ∃ s1, writeEntries smallConfig halOk 0 (init smallConfig)
        (List.replicate 32 (encodeEntry 0)) = some s1 ∧
      s1.flash_ptr = (init smallConfig).flash_ptr :=
  (full_circle_wrap smallConfig halOk 0 (by decide) [] (init smallConfig) rfl).1
    (List.replicate 32 (encodeEntry 0)) (by simp [smallConfig])

/-- C6, amended with the condition under which the call returns: a call
`flash_to_blackbox(data, len)` with `1 ≤ len ≤ 256` from a cursor `a` inside the
region that is page-aligned, or during which the BUSY flag reads clear within
the fuel, returns having issued exactly one Quad Page Program command, instruction 0x32
with `Address = a` and `NbData = len`, followed by the transmit of `data`, and
leaves the cursor at `a + len`, or at `BLACKBOX_START_ADDR` when
`a + len ≥ BLACKBOX_START_ADDR + BLACKBOX_SIZE`. -/
theorem one_page_program_then_advance (cfg : Config) (hal : Hal) (fuel : Nat) (s : State)
    (data : List Nat) (len : Nat)
    (hend : cfg.BLACKBOX_START_ADDR + cfg.BLACKBOX_SIZE + 256 ≤ U32)
    (hlen1 : 1 ≤ len) (hlen2 : len ≤ 256)
    (h1 : cfg.BLACKBOX_START_ADDR ≤ s.flash_ptr)
    (h2 : s.flash_ptr < cfg.BLACKBOX_START_ADDR + cfg.BLACKBOX_SIZE)
    (hret : s.flash_ptr % 256 = 0 ∨ ∃ m, m < fuel ∧ hal.busy (s.flag_reads + m) = false) :
    ∃ s1 pre, flash_to_blackbox cfg hal fuel s data len = some s1 ∧
      s1.trace = s.trace ++ pre ++
        [ Event.command
            { InstructionMode := .INSTRUCTION_1_LINE, Instruction := 0x32,
              AddressMode := .ADDRESS_1_LINE, Address := s.flash_ptr,
              DataMode := .DATA_4_LINES, NbData := len },
          Event.transmit data ] ∧
      pre.any Event.isProgram = false ∧
      s1.flash_ptr =
        if s.flash_ptr + len ≥ cfg.BLACKBOX_START_ADDR + cfg.BLACKBOX_SIZE then
          cfg.BLACKBOX_START_ADDR
        else s.flash_ptr + len := by
  have hp : s.flash_ptr < U32 := by
    have := h1
    unfold U32 at *; omega
  have hadv : advance cfg s.flash_ptr len =
      if s.flash_ptr + len ≥ cfg.BLACKBOX_START_ADDR + cfg.BLACKBOX_SIZE then
        cfg.BLACKBOX_START_ADDR
      else s.flash_ptr + len := by
    unfold advance
    unfold U32 at *
    have e1 : (s.flash_ptr + len % 4294967296) % 4294967296 = s.flash_ptr + len := by omega
    have e2 : (cfg.BLACKBOX_START_ADDR + cfg.BLACKBOX_SIZE) % 4294967296
        = cfg.BLACKBOX_START_ADDR + cfg.BLACKBOX_SIZE := by omega
    simp only [e1, e2]
  have hcmd : programCmd s.flash_ptr len =
      { InstructionMode := .INSTRUCTION_1_LINE, Instruction := 0x32,
        AddressMode := .ADDRESS_1_LINE, Address := s.flash_ptr,
        DataMode := .DATA_4_LINES, NbData := len } := by
    unfold programCmd
    have e : len % U32 = len := by unfold U32; omega
    rw [e]
  by_cases ha : s.flash_ptr % 256 = 0
  · refine ⟨_, [], flash_aligned cfg hal fuel s data len hp ha, ?_, rfl, hadv⟩
    simp only [List.append_nil, hcmd]
  · obtain ⟨m, hm, hb⟩ : ∃ m, m < fuel ∧ hal.busy (s.flag_reads + m) = false := by
      rcases hret with h | h
      · exact absurd h ha
      · exact h
    obtain ⟨r, _, hres⟩ := flash_unaligned cfg hal fuel s data len hp ha m hm hb
    refine ⟨_, Event.command (eraseCmd (s.flash_ptr &&& 0xFFFFFF00)) ::
      List.replicate (r + 1) Event.busy_poll, hres, ?_, ?_, hadv⟩
    · simp only [hcmd]
    · simp [Event.isProgram, eraseCmd]

/-- C6 at start-up on the default region with a 100-byte record. -/
theorem one_page_program_then_advance_witness :
    ∃ s1 pre, flash_to_blackbox defaultConfig halOk 0 (init defaultConfig)
        (encodeEntry 0) 100 = some s1 ∧
      s1.trace = (init defaultConfig).trace ++ pre ++
        [ Event.command
            { InstructionMode := .INSTRUCTION_1_LINE, Instruction := 0x32,
              AddressMode := .ADDRESS_1_LINE, Address := (init defaultConfig).flash_ptr,
              DataMode := .DATA_4_LINES, NbData := 100 },
          Event.transmit (encodeEntry 0) ] ∧
      pre.any Event.isProgram = false ∧
      s1.flash_ptr =
        if (init defaultConfig).flash_ptr + 100 ≥
            defaultConfig.BLACKBOX_START_ADDR + defaultConfig.BLACKBOX_SIZE then
          defaultConfig.BLACKBOX_START_ADDR
        else (init defaultConfig).flash_ptr + 100 :=
  one_page_program_then_advance defaultConfig halOk 0 (init defaultConfig) (encodeEntry 0) 100
    (by decide) (by decide) (by decide) (by decide) (by decide) (Or.inl (by decide))

/-- C7: from every reachable state, `blackbox_flush_task` returns having passed
to `flash_to_blackbox` exactly the slots `commit_idx`, `commit_idx + 1`, ...
(mod 64) up to but not including `write_idx`, each once and in that order, the
store of the advanced `commit_idx` coming after the program and transmit of the
slot it passes over; no slot read is the one at `write_idx`, and at the end
`commit_idx == write_idx` with the ring rows and `write_idx` untouched. -/
theorem flush_drains_pending_in_order (cfg : Config) (hal : Hal) (hw : cfg.WF) (s : State)
    (hr : Reachable cfg hal s) (fuel : Nat) (hf : pending s ≤ fuel) :
    ∃ s1, blackbox_flush_task cfg hal fuel s = some s1 ∧
      s1.trace = s.trace ++ (List.range (pending s)).flatMap (fun k =>
        [ Event.command (programCmd (entryAddr cfg s.flash_ptr k) 256),
          Event.transmit (s.log_buffer ((s.commit_idx + k) % 64)),
          Event.store_commit ((s.commit_idx + k + 1) % 64) ]) ∧
      (∀ k, k < pending s → (s.commit_idx + k) % 64 ≠ s.write_idx) ∧
      (∀ j k, j < k → k < pending s → (s.commit_idx + j) % 64 ≠ (s.commit_idx + k) % 64) ∧
      (s.commit_idx + pending s) % 64 = s.write_idx ∧
      s1.commit_idx = s1.write_idx ∧ s1.write_idx = s.write_idx ∧
      s1.log_buffer = s.log_buffer := by
  have hi := reachable_inv cfg hal hw s hr
  obtain ⟨_, hwi, hci⟩ := hi
  refine ⟨_, flush_spec cfg hal hw s (reachable_inv cfg hal hw s hr) fuel hf,
    rfl, ?_, ?_, ?_, rfl, rfl, rfl⟩
  · intro k hk
    unfold pending at hk
    omega
  · intro j k hjk hk
    unfold pending at hk
    omega
  · unfold pending
    omega

/-- C7 after two captures from start-up. -/
theorem flush_drains_pending_in_order_witness :
    ∃ s1, blackbox_flush_task defaultConfig halOk 2 (loop_1ms (loop_1ms (init defaultConfig)))
        = some s1 ∧
      s1.trace = (loop_1ms (loop_1ms (init defaultConfig))).trace ++
        (List.range (pending (loop_1ms (loop_1ms (init defaultConfig))))).flatMap (fun k =>
          [ Event.command (programCmd
              (entryAddr defaultConfig (loop_1ms (loop_1ms (init defaultConfig))).flash_ptr k) 256),
            Event.transmit ((loop_1ms (loop_1ms (init defaultConfig))).log_buffer
              (((loop_1ms (loop_1ms (init defaultConfig))).commit_idx + k) % 64)),
            Event.store_commit
              (((loop_1ms (loop_1ms (init defaultConfig))).commit_idx + k + 1) % 64) ]) ∧
      (∀ k, k < pending (loop_1ms (loop_1ms (init defaultConfig))) →
        ((loop_1ms (loop_1ms (init defaultConfig))).commit_idx + k) % 64 ≠
          (loop_1ms (loop_1ms (init defaultConfig))).write_idx) ∧
      (∀ j k, j < k → k < pending (loop_1ms (loop_1ms (init defaultConfig))) →
        ((loop_1ms (loop_1ms (init defaultConfig))).commit_idx + j) % 64 ≠
          ((loop_1ms (loop_1ms (init defaultConfig))).commit_idx + k) % 64) ∧
      ((loop_1ms (loop_1ms (init defaultConfig))).commit_idx +
          pending (loop_1ms (loop_1ms (init defaultConfig)))) % 64 =
        (loop_1ms (loop_1ms (init defaultConfig))).write_idx ∧
      s1.commit_idx = s1.write_idx ∧
      s1.write_idx = (loop_1ms (loop_1ms (init defaultConfig))).write_idx ∧
      s1.log_buffer = (loop_1ms (loop_1ms (init defaultConfig))).log_buffer :=
  flush_drains_pending_in_order defaultConfig halOk (by decide)
    (loop_1ms (loop_1ms (init defaultConfig)))
    (Reachable.capture (Reachable.capture Reachable.boot)) 2 (by decide)

/-- C8 on a device where every command fails, with one entry pending after
start-up: the page program of that entry returns `HAL_ERROR`, yet the flush
returns with `commit_idx` moved from 0 to 1, past the entry, and the next flush
issues nothing, so the entry is not handed to `flash_to_blackbox` again. -/
theorem failed_entry_is_not_retried :
    (HAL_QSPI_Command halFail (loop_1ms (init defaultConfig)) (programCmd 0x90000000 256)).1
        = HAL_StatusTypeDef.HAL_ERROR ∧
      (loop_1ms (init defaultConfig)).commit_idx = 0 ∧
      (blackbox_flush_task defaultConfig halFail 1 (loop_1ms (init defaultConfig))).map
        State.commit_idx = some 1 ∧
      (blackbox_flush_task defaultConfig halFail 1 (loop_1ms (init defaultConfig))).map
        State.trace =
          some [ Event.command (programCmd 0x90000000 256), Event.transmit (encodeEntry 0),
                 Event.store_commit 1 ] ∧
      ((blackbox_flush_task defaultConfig halFail 1 (loop_1ms (init defaultConfig))).bind
        (blackbox_flush_task defaultConfig halFail 1)).map State.trace =
          some [ Event.command (programCmd 0x90000000 256), Event.transmit (encodeEntry 0),
                 Event.store_commit 1 ] := by
  have h := flush_after_captures defaultConfig halFail (by decide) (init defaultConfig)
    (reachable_inv _ halFail (by decide) _ Reachable.boot) rfl 1 1 (by decide)
  simp only [Function.iterate_one] at h
  refine ⟨rfl, rfl, ?_, ?_, ?_⟩
  · rw [h]; rfl
  · rw [h]; rfl
  · rw [h, Option.some_bind, flush_idle _ _ _ _ rfl]; rfl

/-- C8, amended to what the code does with a failed write: when a HAL call made
during `blackbox_flush_task` returns a status other than `HAL_OK`, the flush
does not stop; it returns having passed every pending entry once, in order,
with `commit_idx` advanced to `write_idx`, nothing tells the caller (the
outcome is the one a flush on a device whose commands all succeed has), and the
next flush hands no entry to `flash_to_blackbox`, the failed one included. -/
theorem flush_ignores_failed_write (cfg : Config) (hal : Hal) (hw : cfg.WF) (s : State)
    (hr : Reachable cfg hal s) (fuel : Nat) (hf : pending s ≤ fuel)
    (hfail : ∃ k, k < 2 * pending s ∧
      hal.status (s.hal_calls + k) ≠ HAL_StatusTypeDef.HAL_OK) :
    ∃ s1, blackbox_flush_task cfg hal fuel s = some s1 ∧
      s1.hal_calls = s.hal_calls + 2 * pending s ∧
      s1.commit_idx = s.write_idx ∧
      s1.trace = s.trace ++ (List.range (pending s)).flatMap (fun k =>
        [ Event.command (programCmd (entryAddr cfg s.flash_ptr k) 256),
          Event.transmit (s.log_buffer ((s.commit_idx + k) % 64)),
          Event.store_commit ((s.commit_idx + k + 1) % 64) ]) ∧
      blackbox_flush_task cfg { status := fun _ => HAL_StatusTypeDef.HAL_OK, busy := hal.busy }
        fuel s = some s1 ∧
      ∀ fuel2, blackbox_flush_task cfg hal fuel2 s1 = some s1 := by
  obtain ⟨k, hk, _⟩ := hfail
  have hi := reachable_inv cfg hal hw s hr
  have hres := flush_spec cfg hal hw s hi fuel hf
  refine ⟨_, hres, rfl, rfl, rfl, ?_, ?_⟩
  · rw [← hres]
    exact (flush_status cfg hal
      { status := fun _ => HAL_StatusTypeDef.HAL_OK, busy := hal.busy } rfl fuel fuel s
      s.commit_idx).symm
  · intro fuel2
    exact flush_idle cfg hal fuel2 _ rfl

/-- C8, the amended statement with one entry pending after start-up on a device
where every command fails. -/
theorem flush_ignores_failed_write_witness :
    ∃ s1, blackbox_flush_task defaultConfig halFail 1 (loop_1ms (init defaultConfig)) = some s1 ∧
      s1.hal_calls = (loop_1ms (init defaultConfig)).hal_calls +
        2 * pending (loop_1ms (init defaultConfig)) ∧
      s1.commit_idx = (loop_1ms (init defaultConfig)).write_idx ∧
      s1.trace = (loop_1ms (init defaultConfig)).trace ++
        (List.range (pending (loop_1ms (init defaultConfig)))).flatMap (fun k =>
          [ Event.command (programCmd
              (entryAddr defaultConfig (loop_1ms (init defaultConfig)).flash_ptr k) 256),
            Event.transmit ((loop_1ms (init defaultConfig)).log_buffer
              (((loop_1ms (init defaultConfig)).commit_idx + k) % 64)),
            Event.store_commit (((loop_1ms (init defaultConfig)).commit_idx + k + 1) % 64) ]) ∧
      blackbox_flush_task defaultConfig
        { status := fun _ => HAL_StatusTypeDef.HAL_OK, busy := halFail.busy }
        1 (loop_1ms (init defaultConfig)) = some s1 ∧
      ∀ fuel2, blackbox_flush_task defaultConfig halFail fuel2 s1 = some s1 :=
  flush_ignores_failed_write defaultConfig halFail (by decide) (loop_1ms (init defaultConfig))
    (Reachable.capture Reachable.boot) 1 (by decide) ⟨0, by decide, by decide⟩

/-- C9 at start-up with 64 slots: after 64 captures nothing is pending, after
the 65th one entry is, and the flush that follows issues a single page program,
not 64. -/
theorem overrun_flush_persists_one_entry :
    pending (loop_1ms^[64] (init defaultConfig)) = 0 ∧
      pending (loop_1ms^[65] (init defaultConfig)) = 1 ∧
      (blackbox_flush_task defaultConfig halOk 64 (loop_1ms^[65] (init defaultConfig))).map
        State.trace =
          some [ Event.command (programCmd 0x90000000 256), Event.transmit (encodeEntry 0),
                 Event.store_commit 1 ] := by
  have hi := reachable_inv defaultConfig halOk (by decide) _ Reachable.boot
  have h64 := loop_1ms_frame 64 (init defaultConfig) hi.2.1
  have h65 := loop_1ms_frame 65 (init defaultConfig) hi.2.1
  refine ⟨?_, ?_, ?_⟩
  · unfold pending; rw [h64.1, h64.2.2.1]; rfl
  · unfold pending; rw [h65.1, h65.2.2.1]; rfl
  · rw [flush_after_captures defaultConfig halOk (by decide) (init defaultConfig) hi rfl 65 64
      (by decide)]
    rfl

/-- C9, amended to what the code does, which has no ring-full policy: from a
reachable state with an empty ring, 65 calls of `loop_1ms` with no flush in
between leave `commit_idx` alone; after j of them `(write_idx - commit_idx) mod
64` is `j mod 64`, so it never exceeds 63, is 0 after the 64th capture and 1
after the 65th; the flush that follows returns having persisted exactly one
entry, the 65th captured, at the cursor the sequence started with. -/
theorem overrun_keeps_last_capture_only (cfg : Config) (hal : Hal) (hw : cfg.WF) (s : State)
    (hr : Reachable cfg hal s) (he : s.commit_idx = s.write_idx) (fuel : Nat)
    (hf : 1 ≤ fuel) :
    (∀ j, j ≤ 65 → pending (loop_1ms^[j] s) = j % 64 ∧
        (loop_1ms^[j] s).commit_idx = s.commit_idx) ∧
      ∃ s1, blackbox_flush_task cfg hal fuel (loop_1ms^[65] s) = some s1 ∧
        s1.trace = s.trace ++
          [ Event.command (programCmd s.flash_ptr 256), Event.transmit (capturedEntry s 64),
            Event.store_commit ((s.commit_idx + 1) % 64) ] ∧
        s1.commit_idx = s1.write_idx := by
  have hi := reachable_inv cfg hal hw s hr
  obtain ⟨hc, hwi, hci⟩ := hi
  constructor
  · intro j _
    obtain ⟨h1, _, h3, _⟩ := loop_1ms_frame j s hwi
    refine ⟨?_, h3⟩
    unfold pending
    rw [h1, h3, he]
    omega
  · refine ⟨_, flush_after_captures cfg hal hw s ⟨hc, hwi, hci⟩ he 65 fuel (by omega), ?_, ?_⟩
    · dsimp only
      rw [capturedEntry_eq s hwi 64]
      have e : (65 : Nat) % 64 = 0 + 1 := by decide
      rw [e, drainFrom_succ cfg hw _ _ _ 0 hc, he]
      have e2 : (s.write_idx + 64) % 64 = s.write_idx % 64 := by omega
      rw [e2]
      simp [drainFrom]
    · dsimp only
      exact ((loop_1ms_frame 65 s hwi).1).symm

/-- C9, the amended statement at start-up on the default region. -/
theorem overrun_keeps_last_capture_only_witness :
    (∀ j, j ≤ 65 → pending (loop_1ms^[j] (init defaultConfig)) = j % 64 ∧
        (loop_1ms^[j] (init defaultConfig)).commit_idx = (init defaultConfig).commit_idx) ∧
      ∃ s1, blackbox_flush_task defaultConfig halOk 1 (loop_1ms^[65] (init defaultConfig))
          = some s1 ∧
        s1.trace = (init defaultConfig).trace ++
          [ Event.command (programCmd (init defaultConfig).flash_ptr 256),
            Event.transmit (capturedEntry (init defaultConfig) 64),
            Event.store_commit (((init defaultConfig).commit_idx + 1) % 64) ] ∧
        s1.commit_idx = s1.write_idx :=
  overrun_keeps_last_capture_only defaultConfig halOk (by decide) (init defaultConfig)
    Reachable.boot rfl 1 (by decide)

/-- C10: from every reachable state, once `blackbox_flush_task` has returned, a
second call with no capture in between returns the very state the first call
left: no erase, no program, no other event, and `flash_ptr`, `commit_idx`,
`write_idx` and the ring rows as they were. -/
theorem second_flush_changes_nothing (cfg : Config) (hal : Hal) (hw : cfg.WF) (s : State)
    (hr : Reachable cfg hal s) (fuel : Nat) (hf : pending s ≤ fuel) (fuel2 : Nat) :
    ∃ s1, blackbox_flush_task cfg hal fuel s = some s1 ∧
      blackbox_flush_task cfg hal fuel2 s1 = some s1 := by
  have hi := reachable_inv cfg hal hw s hr
  exact ⟨_, flush_spec cfg hal hw s hi fuel hf, flush_idle cfg hal fuel2 _ rfl⟩

/-- C10 after three captures from start-up. -/
theorem second_flush_changes_nothing_witness :
    ∃ s1, blackbox_flush_task defaultConfig halOk 3 (loop_1ms^[3] (init defaultConfig)) = some s1 ∧
      blackbox_flush_task defaultConfig halOk 0 s1 = some s1 :=
  second_flush_changes_nothing defaultConfig halOk (by decide) (loop_1ms^[3] (init defaultConfig))
    (Reachable.capture (Reachable.capture (Reachable.capture Reachable.boot))) 3 (by decide) 0

/-! ## Calls from any cursor -/

theorem flash_returns (cfg : Config) (hal : Hal) (fuel : Nat) (s : State)
    (data : List Nat) (len : Nat) (hp : s.flash_ptr < U32)
    (hret : s.flash_ptr % 256 = 0 ∨ ∃ m, m < fuel ∧ hal.busy (s.flag_reads + m) = false) :
    ∃ s1 r, flash_to_blackbox cfg hal fuel s data len = some s1 ∧
      s1.flash_ptr = advance cfg s.flash_ptr len ∧
      s1.log_buffer = s.log_buffer ∧ s1.write_idx = s.write_idx ∧
      s1.commit_idx = s.commit_idx ∧
      s1.trace = s.trace ++ erasePrefix s.flash_ptr r ++
        [Event.command (programCmd s.flash_ptr len), Event.transmit data] := by
  by_cases ha : s.flash_ptr % 256 = 0
  · refine ⟨_, 0, flash_aligned cfg hal fuel s data len hp ha, rfl, rfl, rfl, rfl, ?_⟩
    simp [erasePrefix, ha]
  · obtain ⟨m, hm, hb⟩ : ∃ m, m < fuel ∧ hal.busy (s.flag_reads + m) = false := by
      rcases hret with h | h
      · exact absurd h ha
      · exact h
    obtain ⟨r, _, hres⟩ := flash_unaligned cfg hal fuel s data len hp ha m hm hb
    refine ⟨_, r, hres, rfl, rfl, rfl, rfl, ?_⟩
    simp [erasePrefix, ha]

theorem waitWhileBusy_frame (hal : Hal) :
    ∀ (fuel : Nat) (s s1 : State), waitWhileBusy hal fuel s = some s1 →
      s1.flash_ptr = s.flash_ptr ∧ s1.log_buffer = s.log_buffer ∧
      s1.write_idx = s.write_idx ∧ s1.commit_idx = s.commit_idx := by
  intro fuel
  induction fuel with
  | zero => intro s s1 h; simp [waitWhileBusy] at h
  | succ f ih =>
    intro s s1 h
    simp only [waitWhileBusy] at h
    split at h
    · exact ih { s with flag_reads := s.flag_reads + 1, trace := s.trace ++ [Event.busy_poll] }
        s1 h
    · cases h
      exact ⟨rfl, rfl, rfl, rfl⟩

theorem flash_frame (cfg : Config) (hal : Hal) (fuel : Nat) (s s1 : State)
    (data : List Nat) (len : Nat) (h : flash_to_blackbox cfg hal fuel s data len = some s1) :
    s1.flash_ptr = advance cfg s.flash_ptr len ∧ s1.log_buffer = s.log_buffer ∧
      s1.write_idx = s.write_idx ∧ s1.commit_idx = s.commit_idx := by
  unfold flash_to_blackbox at h
  dsimp only at h
  split at h
  · cases hw : waitWhileBusy hal fuel
        (HAL_QSPI_Command hal s (eraseCmd (s.flash_ptr &&& 0xFFFFFF00))).2 with
    | none => rw [hw] at h; simp at h
    | some s0 =>
      rw [hw] at h
      obtain ⟨h1, h2, h3, h4⟩ := waitWhileBusy_frame hal fuel _ _ hw
      simp only [Option.some_bind, Option.some.injEq] at h
      subst h
      simp only [HAL_QSPI_Command, HAL_QSPI_Transmit] at h1 h2 h3 h4 ⊢
      exact ⟨by rw [h1], h2, h3, h4⟩
  · simp only [Option.some_bind, Option.some.injEq] at h
    subst h
    exact ⟨rfl, rfl, rfl, rfl⟩

theorem flushLoop_indices (cfg : Config) (hal : Hal) (pf : Nat) :
    ∀ (fuel : Nat) (s : State) (lc : Nat) (s1 : State), lc < 64 → s.write_idx < 64 →
      s.commit_idx < 64 → flushLoop cfg hal pf fuel s lc = some s1 →
      s1.write_idx < 64 ∧ s1.commit_idx < 64 := by
  intro fuel
  induction fuel with
  | zero =>
    intro s lc s1 _ hwi hci h
    by_cases e : lc = s.write_idx
    · simp [flushLoop, e] at h
      rw [← h]; exact ⟨hwi, hci⟩
    · simp [flushLoop, e] at h
  | succ f ih =>
    intro s lc s1 hlc hwi hci h
    by_cases e : lc = s.write_idx
    · simp [flushLoop, e] at h
      rw [← h]; exact ⟨hwi, hci⟩
    · simp only [flushLoop, e, ne_eq, not_false_eq_true, if_true] at h
      cases hf : flash_to_blackbox cfg hal pf s (s.log_buffer lc) LOG_ENTRY_SIZE with
      | none => rw [hf] at h; simp at h
      | some s0 =>
        rw [hf, Option.some_bind] at h
        obtain ⟨_, _, h3, _⟩ := flash_frame cfg hal pf s s0 _ _ hf
        have hlc1 : ((lc + 1) % U32) % LOG_BUFFER_ENTRIES < 64 := by
          unfold LOG_BUFFER_ENTRIES; omega
        exact ih _ _ s1 hlc1 (by dsimp only; rw [h3]; exact hwi) hlc1 h

theorem flushReads_lt (cfg : Config) (hal : Hal) (pf : Nat) :
    ∀ (fuel : Nat) (s : State) (lc : Nat), lc < 64 →
      ∀ i, i ∈ flushReads cfg hal pf fuel s lc → i < 64 := by
  intro fuel
  induction fuel with
  | zero => intro s lc _ i hi; simp [flushReads] at hi
  | succ f ih =>
    intro s lc hlc i hi
    by_cases e : lc = s.write_idx
    · simp [flushReads, e] at hi
    · simp only [flushReads, e, ne_eq, not_false_eq_true, if_true, List.mem_cons] at hi
      rcases hi with hi | hi
      · rw [hi]; exact hlc
      · cases hf : flash_to_blackbox cfg hal pf s (s.log_buffer lc) LOG_ENTRY_SIZE with
        | none => rw [hf] at hi; simp at hi
        | some s0 =>
          rw [hf] at hi
          have hlc1 : ((lc + 1) % U32) % LOG_BUFFER_ENTRIES < 64 := by
            unfold LOG_BUFFER_ENTRIES; omega
          exact ih _ _ hlc1 i hi

/-- C12: a call of `loop_1ms`, from any state, returns without any event (no
QSPI command, no read of the BUSY flag, no HAL call), leaves `flash_ptr` and
`commit_idx` as they were, leaves every ring row other than row `write_idx` as
it was, and sets `write_idx` to `(write_idx + 1) mod 64`. -/
theorem loop_1ms_touches_only_its_slot (s : State) :
    (loop_1ms s).trace = s.trace ∧ (loop_1ms s).hal_calls = s.hal_calls ∧
      (loop_1ms s).flag_reads = s.flag_reads ∧
      (loop_1ms s).flash_ptr = s.flash_ptr ∧ (loop_1ms s).commit_idx = s.commit_idx ∧
      (∀ j, j ≠ s.write_idx → (loop_1ms s).log_buffer j = s.log_buffer j) ∧
      (loop_1ms s).write_idx = (s.write_idx + 1) % 64 := by
  refine ⟨rfl, rfl, rfl, rfl, rfl, ?_, ?_⟩
  · intro j hj
    show (if j = s.write_idx then encodeEntry s.write_idx else s.log_buffer j) = _
    rw [if_neg hj]
  · show ((s.write_idx + 1) % U32) % LOG_BUFFER_ENTRIES = _
    exact Nat.mod_mod_of_dvd _ (by decide)

/-- C18: in every state reached from start-up by complete calls of `loop_1ms`
and `blackbox_flush_task` in any order, `write_idx < 64` and `commit_idx < 64`;
so the row `loop_1ms` writes exists, and every index at which a flush from
that state reads `log_buffer[local_commit]` is below 64. -/
theorem reachable_indices_in_bounds (cfg : Config) (hal : Hal) (s : State)
    (hr : Reachable cfg hal s) :
    s.write_idx < LOG_BUFFER_ENTRIES ∧ s.commit_idx < LOG_BUFFER_ENTRIES ∧
      ∀ fuel i, i ∈ flushReads cfg hal fuel fuel s s.commit_idx → i < LOG_BUFFER_ENTRIES := by
  have h : s.write_idx < 64 ∧ s.commit_idx < 64 := by
    induction hr with
    | boot => exact ⟨by simp [init], by simp [init]⟩
    | capture _ ih =>
      obtain ⟨hwi, hci⟩ := ih
      obtain ⟨h1, _, h3, _⟩ := loop_1ms_frame 1 _ hwi
      simp only [Function.iterate_one] at h1 h3
      exact ⟨by rw [h1]; omega, by rw [h3]; exact hci⟩
    | flush fuel _ hf ih =>
      exact flushLoop_indices cfg hal fuel fuel _ _ _ ih.2 ih.1 ih.2 hf
  exact ⟨h.1, h.2, fun fuel i hi => flushReads_lt cfg hal fuel fuel s _ h.2 i hi⟩

/-- C18 after two captures from start-up. -/
theorem reachable_indices_in_bounds_witness :
    (loop_1ms (loop_1ms (init defaultConfig))).write_idx < LOG_BUFFER_ENTRIES ∧
      (loop_1ms (loop_1ms (init defaultConfig))).commit_idx < LOG_BUFFER_ENTRIES ∧
      ∀ fuel i, i ∈ flushReads defaultConfig halOk fuel fuel
          (loop_1ms (loop_1ms (init defaultConfig)))
          (loop_1ms (loop_1ms (init defaultConfig))).commit_idx →
        i < LOG_BUFFER_ENTRIES :=
  reachable_indices_in_bounds defaultConfig halOk (loop_1ms (loop_1ms (init defaultConfig)))
    (Reachable.capture (Reachable.capture Reachable.boot))

theorem land_low (p : Nat) : p &&& 0xFF = p % 256 := by
  have h := Nat.and_pow_two_sub_one_eq_mod p 8
  simpa using h

/-- C14: a call of `flash_to_blackbox` returns (on an unaligned cursor: once the
BUSY flag reads clear) having issued a Sector Erase command, instruction 0x20,
exactly when the cursor before the call is not at the start of a 256-byte page
(`flash_ptr & 0xFF != 0`); the erase goes to the page base `flash_ptr & ~0xFF`
and it and the reads of the BUSY flag come before the page program of the
call. -/
theorem erase_iff_cursor_unaligned (cfg : Config) (hal : Hal) (fuel : Nat) (s : State)
    (data : List Nat) (len : Nat) (hp : s.flash_ptr < U32)
    (hret : s.flash_ptr &&& 0xFF = 0 ∨
      ∃ m, m < fuel ∧ hal.busy (s.flag_reads + m) = false) :
    ∃ s1, flash_to_blackbox cfg hal fuel s data len = some s1 ∧
      ((s1.trace.drop s.trace.length).any Event.isErase = true ↔ s.flash_ptr &&& 0xFF ≠ 0) ∧
      (s.flash_ptr &&& 0xFF ≠ 0 → ∃ r, s1.trace = s.trace ++
        [ Event.command
            { InstructionMode := .INSTRUCTION_1_LINE, Instruction := 0x20,
              AddressMode := .ADDRESS_1_LINE, Address := s.flash_ptr &&& 0xFFFFFF00,
              DataMode := .DATA_NONE, NbData := 0 } ] ++
        List.replicate (r + 1) Event.busy_poll ++
        [Event.command (programCmd s.flash_ptr len), Event.transmit data]) ∧
      (s.flash_ptr &&& 0xFF = 0 → s1.trace = s.trace ++
        [Event.command (programCmd s.flash_ptr len), Event.transmit data]) := by
  rw [land_low] at hret ⊢
  obtain ⟨s1, r, h1, _, _, _, _, ht⟩ := flash_returns cfg hal fuel s data len hp hret
  refine ⟨s1, h1, ?_, ?_, ?_⟩
  · rw [ht, List.append_assoc, List.drop_left]
    by_cases ha : s.flash_ptr % 256 = 0
    · simp [erasePrefix, ha, Event.isErase, programCmd]
    · simp [erasePrefix, ha, Event.isErase, eraseCmd]
  · intro ha
    refine ⟨r, ?_⟩
    rw [ht]
    simp [erasePrefix, ha, eraseCmd]
  · intro ha
    rw [ht]
    simp [erasePrefix, ha]

/-- C14 on a cursor one byte into the first page, with a device that is never
busy. -/
theorem erase_iff_cursor_unaligned_witness :
    ∃ s1, flash_to_blackbox defaultConfig halOk 1 offPageState (encodeEntry 0) 256 = some s1 ∧
      ((s1.trace.drop offPageState.trace.length).any Event.isErase = true ↔
        offPageState.flash_ptr &&& 0xFF ≠ 0) ∧
      (offPageState.flash_ptr &&& 0xFF ≠ 0 →
        ∃ r, s1.trace = offPageState.trace ++
          [ Event.command
              { InstructionMode := .INSTRUCTION_1_LINE, Instruction := 0x20,
                AddressMode := .ADDRESS_1_LINE,
                Address := offPageState.flash_ptr &&& 0xFFFFFF00,
                DataMode := .DATA_NONE, NbData := 0 } ] ++
          List.replicate (r + 1) Event.busy_poll ++
          [ Event.command (programCmd offPageState.flash_ptr 256),
            Event.transmit (encodeEntry 0) ]) ∧
      (offPageState.flash_ptr &&& 0xFF = 0 →
        s1.trace = offPageState.trace ++
          [ Event.command (programCmd offPageState.flash_ptr 256),
            Event.transmit (encodeEntry 0) ]) :=
  erase_iff_cursor_unaligned defaultConfig halOk 1 offPageState (encodeEntry 0) 256
    (by decide) (Or.inr ⟨0, by decide, rfl⟩)

theorem quiet_step (s : State) (hq : Quiet s) (p len : Nat) (data : List Nat) (ptr calls : Nat)
    (extra : List Event) (hx : ∀ e ∈ extra, e.isErase = false ∧ e ≠ Event.busy_poll) :
    Quiet { s with
      flash_ptr := ptr
      hal_calls := calls
      trace := s.trace ++ [Event.command (programCmd p len), Event.transmit data] ++ extra } := by
  obtain ⟨h0, ht⟩ := hq
  refine ⟨h0, ?_⟩
  intro e he
  simp only [List.mem_append, List.mem_cons, List.mem_singleton, List.not_mem_nil,
    or_false] at he
  rcases he with (he | he | he) | he
  · exact ht e he
  · subst he
    exact ⟨by simp [Event.isErase, programCmd], by simp⟩
  · subst he
    exact ⟨rfl, by simp⟩
  · exact hx e he

theorem writeEntries_quiet (cfg : Config) (hal : Hal) (fuel : Nat) (hw : cfg.WF) :
    ∀ (ds : List (List Nat)) (s : State), CursorOk cfg s.flash_ptr → Quiet s →
      ∃ s1, writeEntries cfg hal fuel s ds = some s1 ∧ Quiet s1 := by
  intro ds
  induction ds with
  | nil => intro s _ hq; exact ⟨s, rfl, hq⟩
  | cons d ds ih =>
    intro s hc hq
    obtain ⟨hp, ha⟩ := cursorOk_facts cfg hw _ hc
    obtain ⟨_, hc2⟩ := advance_ok cfg hw _ hc
    have hq1 := quiet_step s hq s.flash_ptr 256 d (advance cfg s.flash_ptr 256)
      (s.hal_calls + 2) [] (by simp)
    obtain ⟨s1, h1, h2⟩ := ih _ hc2 hq1
    refine ⟨s1, ?_, h2⟩
    simp only [writeEntries, LOG_ENTRY_SIZE]
    rw [flash_aligned cfg hal fuel s d 256 hp ha, Option.some_bind]
    simpa using h1

theorem flushLoop_quiet (cfg : Config) (hal : Hal) (pf : Nat) (hw : cfg.WF) :
    ∀ (fuel : Nat) (s : State) (lc : Nat) (s1 : State), CursorOk cfg s.flash_ptr → Quiet s →
      flushLoop cfg hal pf fuel s lc = some s1 → Quiet s1 := by
  intro fuel
  induction fuel with
  | zero =>
    intro s lc s1 _ hq h
    by_cases e : lc = s.write_idx
    · simp [flushLoop, e] at h
      rw [← h]; exact hq
    · simp [flushLoop, e] at h
  | succ f ih =>
    intro s lc s1 hc hq h
    by_cases e : lc = s.write_idx
    · simp [flushLoop, e] at h
      rw [← h]; exact hq
    · obtain ⟨hp, ha⟩ := cursorOk_facts cfg hw _ hc
      obtain ⟨_, hc2⟩ := advance_ok cfg hw _ hc
      simp only [flushLoop, e, ne_eq, not_false_eq_true, if_true, LOG_ENTRY_SIZE] at h
      rw [flash_aligned cfg hal pf s _ 256 hp ha, Option.some_bind] at h
      dsimp only at h
      refine ih _ _ s1 hc2 ?_ h
      have hq1 := quiet_step s hq s.flash_ptr 256 (s.log_buffer lc) (advance cfg s.flash_ptr 256)
        (s.hal_calls + 2) [Event.store_commit (((lc + 1) % U32) % LOG_BUFFER_ENTRIES)]
        (by simp [Event.isErase])
      exact ⟨hq1.1, hq1.2⟩

/-- C15: in the documented usage, calls with `len = 256` from the initial
cursor, `flash_to_blackbox` never issues a Sector Erase and never reads the BUSY
flag, whatever the number of laps: this holds after every sequence of direct
256-byte calls from start-up, all of which return, and in every state reached
from start-up through `loop_1ms` and `blackbox_flush_task`. -/
theorem documented_usage_never_erases (cfg : Config) (hal : Hal) (fuel : Nat) (hw : cfg.WF) :
    (∀ ds : List (List Nat), ∃ s1, writeEntries cfg hal fuel (init cfg) ds = some s1 ∧
        s1.flag_reads = 0 ∧ ∀ e ∈ s1.trace, e.isErase = false ∧ e ≠ Event.busy_poll) ∧
      (∀ s, Reachable cfg hal s →
        s.flag_reads = 0 ∧ ∀ e ∈ s.trace, e.isErase = false ∧ e ≠ Event.busy_poll) := by
  have hq0 : Quiet (init cfg) := ⟨rfl, by simp [init]⟩
  constructor
  · intro ds
    obtain ⟨s1, h1, h2⟩ := writeEntries_quiet cfg hal fuel hw ds (init cfg)
      (init_cursorOk cfg hw) hq0
    exact ⟨s1, h1, h2.1, h2.2⟩
  · intro s hr
    have h : Quiet s := by
      induction hr with
      | boot => exact hq0
      | capture _ ih => exact ih
      | flush fuel2 hr2 hf ih =>
        exact flushLoop_quiet cfg hal fuel2 hw fuel2 _ _ _
          (reachable_inv cfg hal hw _ hr2).1 ih hf
    exact ⟨h.1, h.2⟩

/-- C15 on the 8192-byte region, two laps of direct calls. -/
theorem documented_usage_never_erases_witness :
    ∃ s1, writeEntries smallConfig halOk 0 (init smallConfig)
        (List.replicate 64 (encodeEntry 0)) = some s1 ∧
      s1.flag_reads = 0 ∧ ∀ e ∈ s1.trace, e.isErase = false ∧ e ≠ Event.busy_poll :=
  (documented_usage_never_erases smallConfig halOk 0 (by decide)).1
    (List.replicate 64 (encodeEntry 0))

/-- C17: from every reachable state with an empty ring, after N calls of
`loop_1ms` with no flush in between, one `blackbox_flush_task` returns having
passed exactly `N mod 64` entries to `flash_to_blackbox`, the rows
`commit_idx`, ..., `commit_idx + (N mod 64) - 1` (mod 64) in that order, and
these rows hold the last `N mod 64` captures; after exactly 64 captures the
flush issues nothing. -/
theorem flush_after_captures_persists_N_mod_64 (cfg : Config) (hal : Hal) (hw : cfg.WF)
    (s : State) (hr : Reachable cfg hal s) (he : s.commit_idx = s.write_idx)
    (N fuel : Nat) (hf : N % 64 ≤ fuel) :
    ∃ s1, blackbox_flush_task cfg hal fuel (loop_1ms^[N] s) = some s1 ∧
      s1.trace = s.trace ++ (List.range (N % 64)).flatMap (fun k =>
        [ Event.command (programCmd (entryAddr cfg s.flash_ptr k) 256),
          Event.transmit ((loop_1ms^[N] s).log_buffer ((s.commit_idx + k) % 64)),
          Event.store_commit ((s.commit_idx + k + 1) % 64) ]) ∧
      (∀ k, k < N % 64 → (loop_1ms^[N] s).log_buffer ((s.commit_idx + k) % 64) =
        capturedEntry s (N - N % 64 + k)) ∧
      (N = 64 → s1.trace = s.trace) := by
  have hi := reachable_inv cfg hal hw s hr
  have hwi := hi.2.1
  have hrow : ∀ k, k < N % 64 → (loop_1ms^[N] s).log_buffer ((s.commit_idx + k) % 64) =
      encodeEntry ((s.commit_idx + k) % 64) := by
    intro k hk
    rw [he]
    exact loop_1ms_rows N s hwi k (lt_of_lt_of_le hk (Nat.mod_le N 64))
  refine ⟨_, flush_after_captures cfg hal hw s hi he N fuel hf, ?_, ?_, ?_⟩
  · dsimp only
    congr 1
    unfold drainFrom
    apply List.flatMap_congr
    intro k hk
    rw [hrow k (List.mem_range.1 hk)]
  · intro k hk
    rw [hrow k hk, capturedEntry_eq s hwi, he]
    congr 1
    omega
  · intro hN
    dsimp only
    rw [hN]
    simp [drainFrom]

/-- C17 at start-up with exactly 64 captures: the flush issues nothing. -/
theorem flush_after_captures_persists_N_mod_64_witness :
    ∃ s1, blackbox_flush_task defaultConfig halOk 0 (loop_1ms^[64] (init defaultConfig))
        = some s1 ∧
      s1.trace = (init defaultConfig).trace ++ (List.range (64 % 64)).flatMap (fun k =>
        [ Event.command (programCmd (entryAddr defaultConfig (init defaultConfig).flash_ptr k) 256),
          Event.transmit ((loop_1ms^[64] (init defaultConfig)).log_buffer
            (((init defaultConfig).commit_idx + k) % 64)),
          Event.store_commit (((init defaultConfig).commit_idx + k + 1) % 64) ]) ∧
      (∀ k, k < 64 % 64 →
        (loop_1ms^[64] (init defaultConfig)).log_buffer
            (((init defaultConfig).commit_idx + k) % 64) =
          capturedEntry (init defaultConfig) (64 - 64 % 64 + k)) ∧
      (64 = 64 → s1.trace = (init defaultConfig).trace) :=
  flush_after_captures_persists_N_mod_64 defaultConfig halOk (by decide) (init defaultConfig)
    Reachable.boot rfl 64 0 (by decide)

/-! ## Termination of the drain loop -/

theorem advance_lt (cfg : Config) (hstart : cfg.BLACKBOX_START_ADDR < U32) (p len : Nat) :
    advance cfg p len < U32 := by
  unfold advance
  dsimp only
  split
  · exact hstart
  · exact Nat.mod_lt _ (by decide)

theorem advance_aligned (cfg : Config) (hs : cfg.BLACKBOX_START_ADDR % 256 = 0) (p : Nat)
    (ha : p % 256 = 0) : advance cfg p 256 % 256 = 0 := by
  unfold advance
  dsimp only
  split
  · exact hs
  · unfold U32; omega

theorem erasePrefix_no_store (p r : Nat) : (erasePrefix p r).countP Event.isStore = 0 := by
  rw [List.countP_eq_zero]
  intro e he
  unfold erasePrefix at he
  split at he
  · simp at he
  · simp only [List.mem_cons, List.mem_replicate] at he
    rcases he with he | ⟨_, he⟩
    · subst he; simp [Event.isStore]
    · subst he; simp [Event.isStore]

theorem flushLoop_terminates (cfg : Config) (hal : Hal) (pf : Nat)
    (hstart : cfg.BLACKBOX_START_ADDR < U32)
    (hdev : cfg.BLACKBOX_START_ADDR % 256 = 0 ∨
      ∀ k, ∃ m, m < pf ∧ hal.busy (k + m) = false) :
    ∀ (n fuel : Nat) (s : State) (lc : Nat), s.flash_ptr < U32 →
      (s.flash_ptr % 256 = 0 ∨ ∀ k, ∃ m, m < pf ∧ hal.busy (k + m) = false) →
      lc < 64 → s.write_idx < 64 → (s.write_idx + 64 - lc) % 64 = n → n ≤ fuel →
      ∃ s1, flushLoop cfg hal pf fuel s lc = some s1 ∧
        s1.trace.countP Event.isStore = s.trace.countP Event.isStore + n ∧
        s1.write_idx = s.write_idx := by
  intro n
  induction n with
  | zero =>
    intro fuel s lc _ _ hlc hwi hn _
    have e : lc = s.write_idx := by omega
    refine ⟨s, ?_, rfl, rfl⟩
    cases fuel <;> simp [flushLoop, e]
  | succ n ih =>
    intro fuel s lc hp ha hlc hwi hn hf
    obtain ⟨f, rfl⟩ : ∃ f, fuel = f + 1 := ⟨fuel - 1, by omega⟩
    have hne : lc ≠ s.write_idx := by omega
    have hm : (s.write_idx + 64 - (lc + 1) % 64) % 64 = n := by omega
    have hlt : (lc + 1) % 64 < 64 := Nat.mod_lt _ (by decide)
    have hfn : n ≤ f := by omega
    have hret : s.flash_ptr % 256 = 0 ∨
        ∃ m, m < pf ∧ hal.busy (s.flag_reads + m) = false := by
      rcases ha with h | h
      · exact Or.inl h
      · exact Or.inr (h s.flag_reads)
    obtain ⟨s0, r, h0, hptr, _, hw0, _, ht⟩ :=
      flash_returns cfg hal pf s (s.log_buffer lc) LOG_ENTRY_SIZE hp hret
    have hlc1 : ((lc + 1) % U32) % LOG_BUFFER_ENTRIES = (lc + 1) % 64 := by
      unfold U32 LOG_BUFFER_ENTRIES; omega
    have ha1 : advance cfg s.flash_ptr 256 % 256 = 0 ∨
        ∀ k, ∃ m, m < pf ∧ hal.busy (k + m) = false := by
      rcases ha with h | h
      · rcases hdev with hs | hb
        · exact Or.inl (advance_aligned cfg hs _ h)
        · exact Or.inr hb
      · exact Or.inr h
    obtain ⟨s1, h1, hc1, hw1⟩ := ih f
      { s0 with
        commit_idx := (lc + 1) % 64
        trace := s0.trace ++ [Event.store_commit ((lc + 1) % 64)] }
      ((lc + 1) % 64)
      (by dsimp only; rw [hptr]; exact advance_lt cfg hstart _ _)
      (by dsimp only; rw [hptr]; exact ha1)
      hlt (by dsimp only; rw [hw0]; exact hwi)
      (by dsimp only; rw [hw0]; exact hm) hfn
    refine ⟨s1, ?_, ?_, ?_⟩
    · simp only [flushLoop, hne, ne_eq, not_false_eq_true, if_true]
      rw [h0, Option.some_bind, hlc1]
      exact h1
    · rw [hc1]
      dsimp only
      rw [ht]
      simp only [List.countP_append, erasePrefix_no_store, List.countP_cons,
        List.countP_nil, Event.isStore]
      simp
      omega
    · rw [hw1]
      exact hw0

theorem flushLoop_short (cfg : Config) (hal : Hal) (pf : Nat) :
    ∀ (fuel : Nat) (s : State) (lc : Nat), lc < 64 → s.write_idx < 64 →
      fuel < (s.write_idx + 64 - lc) % 64 → flushLoop cfg hal pf fuel s lc = none := by
  intro fuel
  induction fuel with
  | zero =>
    intro s lc _ _ h
    have hne : lc ≠ s.write_idx := by omega
    simp [flushLoop, hne]
  | succ f ih =>
    intro s lc hlc hwi h
    have hne : lc ≠ s.write_idx := by omega
    simp only [flushLoop, hne, ne_eq, not_false_eq_true, if_true]
    cases hf : flash_to_blackbox cfg hal pf s (s.log_buffer lc) LOG_ENTRY_SIZE with
    | none => rfl
    | some s0 =>
      rw [Option.some_bind]
      obtain ⟨_, _, h3, _⟩ := flash_frame cfg hal pf s s0 _ _ hf
      have hlc1 : ((lc + 1) % U32) % LOG_BUFFER_ENTRIES = (lc + 1) % 64 := by
        unfold U32 LOG_BUFFER_ENTRIES; omega
      rw [hlc1]
      apply ih
      · omega
      · dsimp only; rw [h3]; exact hwi
      · dsimp only; rw [h3]; omega

/-- C19, amended with the condition under which the calls made in the loop
return: from every state with `write_idx < 64` and `commit_idx < 64`, on a
page-aligned cursor and region base or else with a BUSY flag that reads clear
within the poll fuel, the `while` loop of `blackbox_flush_task` ends after exactly
`(write_idx - commit_idx) mod 64` iterations, at most 63: with that much fuel
it returns, having stored the consumer index that many times and with
`write_idx` as it was, with less fuel it does not; and every iteration lowers
`(write_idx - local_commit) mod 64`. -/
theorem drain_loop_terminates (cfg : Config) (hal : Hal) (pf : Nat) (s : State)
    (hwi : s.write_idx < 64) (hci : s.commit_idx < 64) (hp : s.flash_ptr < U32)
    (hstart : cfg.BLACKBOX_START_ADDR < U32)
    (hdev : (cfg.BLACKBOX_START_ADDR % 256 = 0 ∧ s.flash_ptr % 256 = 0) ∨
      ∀ k, ∃ m, m < pf ∧ hal.busy (k + m) = false) :
    pending s ≤ 63 ∧
      (∀ fuel, pending s ≤ fuel →
        ∃ s1, flushLoop cfg hal pf fuel s s.commit_idx = some s1 ∧
          s1.trace.countP Event.isStore = s.trace.countP Event.isStore + pending s ∧
          s1.write_idx = s.write_idx) ∧
      (∀ fuel, fuel < pending s → flushLoop cfg hal pf fuel s s.commit_idx = none) ∧
      (∀ lc, lc < 64 → lc ≠ s.write_idx →
        (s.write_idx + 64 - ((lc + 1) % U32) % LOG_BUFFER_ENTRIES) % 64
          < (s.write_idx + 64 - lc) % 64) := by
  have hd1 : cfg.BLACKBOX_START_ADDR % 256 = 0 ∨
      ∀ k, ∃ m, m < pf ∧ hal.busy (k + m) = false := by
    rcases hdev with h | h
    · exact Or.inl h.1
    · exact Or.inr h
  have hd2 : s.flash_ptr % 256 = 0 ∨ ∀ k, ∃ m, m < pf ∧ hal.busy (k + m) = false := by
    rcases hdev with h | h
    · exact Or.inl h.2
    · exact Or.inr h
  refine ⟨?_, ?_, ?_, ?_⟩
  · unfold pending; omega
  · intro fuel hf
    exact flushLoop_terminates cfg hal pf hstart hd1 (pending s) fuel s s.commit_idx hp hd2
      hci hwi rfl hf
  · intro fuel hf
    exact flushLoop_short cfg hal pf fuel s s.commit_idx hci hwi hf
  · intro lc hlc hne
    unfold U32 LOG_BUFFER_ENTRIES
    omega

/-- C19 after two captures from start-up, on a device whose BUSY flag never
clears. -/
theorem drain_loop_terminates_witness :
    pending (loop_1ms (loop_1ms (init defaultConfig))) ≤ 63 ∧
      (∀ fuel, pending (loop_1ms (loop_1ms (init defaultConfig))) ≤ fuel →
        ∃ s1, flushLoop defaultConfig halStuck 0 fuel (loop_1ms (loop_1ms (init defaultConfig)))
            (loop_1ms (loop_1ms (init defaultConfig))).commit_idx = some s1 ∧
          s1.trace.countP Event.isStore =
            (loop_1ms (loop_1ms (init defaultConfig))).trace.countP Event.isStore +
              pending (loop_1ms (loop_1ms (init defaultConfig))) ∧
          s1.write_idx = (loop_1ms (loop_1ms (init defaultConfig))).write_idx) ∧
      (∀ fuel, fuel < pending (loop_1ms (loop_1ms (init defaultConfig))) →
        flushLoop defaultConfig halStuck 0 fuel (loop_1ms (loop_1ms (init defaultConfig)))
          (loop_1ms (loop_1ms (init defaultConfig))).commit_idx = none) ∧
      (∀ lc, lc < 64 → lc ≠ (loop_1ms (loop_1ms (init defaultConfig))).write_idx →
        ((loop_1ms (loop_1ms (init defaultConfig))).write_idx + 64 -
            ((lc + 1) % U32) % LOG_BUFFER_ENTRIES) % 64
          < ((loop_1ms (loop_1ms (init defaultConfig))).write_idx + 64 - lc) % 64) :=
  drain_loop_terminates defaultConfig halStuck 0 (loop_1ms (loop_1ms (init defaultConfig)))
    (by decide) (by decide) (by decide) (by decide) (Or.inl ⟨by decide, by decide⟩)

/-! ## Sequences of calls with any length -/

theorem writeAll_append (cfg : Config) (hal : Hal) (fuel : Nat) :
    ∀ (xs ys : List (List Nat × Nat)) (s : State),
      writeAll cfg hal fuel s (xs ++ ys) =
        (writeAll cfg hal fuel s xs).bind fun s1 => writeAll cfg hal fuel s1 ys := by
  intro xs
  induction xs with
  | nil => intro ys s; rfl
  | cons c cs ih =>
    intro ys s
    simp only [List.cons_append, writeAll]
    cases flash_to_blackbox cfg hal fuel s c.1 c.2 with
    | none => rfl
    | some s1 => simp only [Option.some_bind]; exact ih ys s1

theorem advance_eq (cfg : Config)
    (hend : cfg.BLACKBOX_START_ADDR + cfg.BLACKBOX_SIZE + 256 ≤ U32) (a len : Nat)
    (h2 : a < cfg.BLACKBOX_START_ADDR + cfg.BLACKBOX_SIZE) (hlen : len ≤ 256) :
    advance cfg a len =
      if a + len ≥ cfg.BLACKBOX_START_ADDR + cfg.BLACKBOX_SIZE then cfg.BLACKBOX_START_ADDR
      else a + len := by
  unfold advance
  unfold U32 at *
  have e1 : (a + len % 4294967296) % 4294967296 = a + len := by omega
  have e2 : (cfg.BLACKBOX_START_ADDR + cfg.BLACKBOX_SIZE) % 4294967296
      = cfg.BLACKBOX_START_ADDR + cfg.BLACKBOX_SIZE := by omega
  simp only [e1, e2]

theorem program_mem_step (t : List Event) (p r len : Nat) (data : List Nat)
    (cmd : QSPI_CommandTypeDef)
    (h : Event.command cmd ∈ t ++ erasePrefix p r ++
      [Event.command (programCmd p len), Event.transmit data])
    (hi : cmd.Instruction = 0x32) :
    Event.command cmd ∈ t ∨ cmd = programCmd p len := by
  simp only [List.mem_append, List.mem_cons, List.mem_singleton, List.not_mem_nil,
    or_false] at h
  rcases h with (h | h) | h | h
  · exact Or.inl h
  · exfalso
    unfold erasePrefix at h
    split at h
    · simp at h
    · simp only [List.mem_cons, List.mem_replicate] at h
      rcases h with h | ⟨_, h⟩
      · injection h with h
        rw [h] at hi
        simp [eraseCmd] at hi
      · cases h
  · injection h with h
    exact Or.inr h
  · cases h

theorem writeAll_region (cfg : Config) (hal : Hal) (fuel : Nat)
    (hend : cfg.BLACKBOX_START_ADDR + cfg.BLACKBOX_SIZE + 256 ≤ U32)
    (hbusy : ∀ k, ∃ m, m < fuel ∧ hal.busy (k + m) = false) :
    ∀ (calls : List (List Nat × Nat)) (s : State),
      cfg.BLACKBOX_START_ADDR ≤ s.flash_ptr →
      s.flash_ptr < cfg.BLACKBOX_START_ADDR + cfg.BLACKBOX_SIZE →
      (∀ c ∈ calls, 1 ≤ c.2 ∧ c.2 ≤ 256) →
      (∀ cmd, Event.command cmd ∈ s.trace → cmd.Instruction = 0x32 →
        cfg.BLACKBOX_START_ADDR ≤ cmd.Address ∧
        cmd.Address < cfg.BLACKBOX_START_ADDR + cfg.BLACKBOX_SIZE ∧
        cmd.Address + cmd.NbData ≤ cfg.BLACKBOX_START_ADDR + cfg.BLACKBOX_SIZE + 255) →
      ∃ s1, writeAll cfg hal fuel s calls = some s1 ∧
        cfg.BLACKBOX_START_ADDR ≤ s1.flash_ptr ∧
        s1.flash_ptr < cfg.BLACKBOX_START_ADDR + cfg.BLACKBOX_SIZE ∧
        (∀ cmd, Event.command cmd ∈ s1.trace → cmd.Instruction = 0x32 →
          cfg.BLACKBOX_START_ADDR ≤ cmd.Address ∧
          cmd.Address < cfg.BLACKBOX_START_ADDR + cfg.BLACKBOX_SIZE ∧
          cmd.Address + cmd.NbData ≤ cfg.BLACKBOX_START_ADDR + cfg.BLACKBOX_SIZE + 255) := by
  intro calls
  induction calls with
  | nil => intro s h1 h2 _ ht; exact ⟨s, rfl, h1, h2, ht⟩
  | cons c cs ih =>
    intro s h1 h2 hlen ht
    have hc := hlen c (List.mem_cons_self _ _)
    have hp : s.flash_ptr < U32 := by unfold U32 at *; omega
    obtain ⟨s0, r, h0, hptr, _, _, _, htr⟩ :=
      flash_returns cfg hal fuel s c.1 c.2 hp (Or.inr (hbusy s.flag_reads))
    have hadv := advance_eq cfg hend s.flash_ptr c.2 h2 hc.2
    have hb1 : cfg.BLACKBOX_START_ADDR ≤ s0.flash_ptr := by
      rw [hptr, hadv]; split <;> omega
    have hb2 : s0.flash_ptr < cfg.BLACKBOX_START_ADDR + cfg.BLACKBOX_SIZE := by
      rw [hptr, hadv]; split <;> omega
    have ht0 : ∀ cmd, Event.command cmd ∈ s0.trace → cmd.Instruction = 0x32 →
        cfg.BLACKBOX_START_ADDR ≤ cmd.Address ∧
        cmd.Address < cfg.BLACKBOX_START_ADDR + cfg.BLACKBOX_SIZE ∧
        cmd.Address + cmd.NbData ≤ cfg.BLACKBOX_START_ADDR + cfg.BLACKBOX_SIZE + 255 := by
      intro cmd hm hi
      rw [htr] at hm
      rcases program_mem_step _ _ _ _ _ _ hm hi with h | h
      · exact ht cmd h hi
      · subst h
        have e : c.2 % U32 = c.2 := by unfold U32; omega
        simp only [programCmd, e]
        omega
    obtain ⟨s1, hr, hh⟩ := ih s0 hb1 hb2
      (fun c2 hc2 => hlen c2 (List.mem_cons_of_mem _ hc2)) ht0
    refine ⟨s1, ?_, hh⟩
    simp only [writeAll]
    rw [h0, Option.some_bind]
    exact hr

/-- C16: after every sequence of calls of `flash_to_blackbox` from the initial
state with each `len` in 1..256 (all of which return when the BUSY flag reads
clear within the fuel), if the cursor `flash_ptr` is left off a page start, so
that the next call issues a Sector Erase at `flash_ptr & ~0xFF`, then the
256-byte page at the erase address contains the address `flash_ptr - 1`, and
that address lies in the range the last call of the sequence programmed. -/
theorem erase_hits_previous_write (cfg : Config) (hal : Hal) (fuel : Nat)
    (hs : cfg.BLACKBOX_START_ADDR % 256 = 0) (hpos : 0 < cfg.BLACKBOX_SIZE)
    (hend : cfg.BLACKBOX_START_ADDR + cfg.BLACKBOX_SIZE + 256 ≤ U32)
    (hbusy : ∀ k, ∃ m, m < fuel ∧ hal.busy (k + m) = false)
    (calls : List (List Nat × Nat)) (hlen : ∀ c ∈ calls, 1 ≤ c.2 ∧ c.2 ≤ 256) :
    ∃ s, writeAll cfg hal fuel (init cfg) calls = some s ∧
      (s.flash_ptr &&& 0xFF ≠ 0 →
        (∀ (d2 : List Nat) (len2 : Nat), ∃ s2 r,
          flash_to_blackbox cfg hal fuel s d2 len2 = some s2 ∧
          s2.trace = s.trace ++
            (Event.command (eraseCmd (s.flash_ptr &&& 0xFFFFFF00)) ::
              List.replicate (r + 1) Event.busy_poll) ++
            [Event.command (programCmd s.flash_ptr len2), Event.transmit d2]) ∧
        s.flash_ptr &&& 0xFFFFFF00 ≤ s.flash_ptr - 1 ∧
        s.flash_ptr - 1 < (s.flash_ptr &&& 0xFFFFFF00) + 256 ∧
        ∃ prev d len s0 r0, calls = prev ++ [(d, len)] ∧
          writeAll cfg hal fuel (init cfg) prev = some s0 ∧
          s.trace = s0.trace ++ erasePrefix s0.flash_ptr r0 ++
            [Event.command (programCmd s0.flash_ptr len), Event.transmit d] ∧
          s0.flash_ptr ≤ s.flash_ptr - 1 ∧ s.flash_ptr - 1 < s0.flash_ptr + len) := by
  have hinit1 : cfg.BLACKBOX_START_ADDR ≤ (init cfg).flash_ptr := le_refl _
  have hinit2 : (init cfg).flash_ptr < cfg.BLACKBOX_START_ADDR + cfg.BLACKBOX_SIZE := by
    show cfg.BLACKBOX_START_ADDR < _
    omega
  have hinit3 : ∀ cmd, Event.command cmd ∈ (init cfg).trace → cmd.Instruction = 0x32 →
      cfg.BLACKBOX_START_ADDR ≤ cmd.Address ∧
      cmd.Address < cfg.BLACKBOX_START_ADDR + cfg.BLACKBOX_SIZE ∧
      cmd.Address + cmd.NbData ≤ cfg.BLACKBOX_START_ADDR + cfg.BLACKBOX_SIZE + 255 := by
    intro cmd hm
    simp [init] at hm
  rcases List.eq_nil_or_concat calls with hnil | ⟨prev, c, hcc⟩
  · subst hnil
    refine ⟨init cfg, rfl, ?_⟩
    intro hne
    exfalso
    apply hne
    rw [land_low]
    exact hs
  · rw [List.concat_eq_append] at hcc
    subst hcc
    have hc := hlen c (by simp)
    obtain ⟨s0, hr0, hb1, hb2, _⟩ := writeAll_region cfg hal fuel hend hbusy prev (init cfg)
      hinit1 hinit2 (fun c2 hc2 => hlen c2 (by simp [hc2])) hinit3
    have hp0 : s0.flash_ptr < U32 := by unfold U32 at *; omega
    obtain ⟨s, r0, h0, hptr, _, _, _, htr⟩ :=
      flash_returns cfg hal fuel s0 c.1 c.2 hp0 (Or.inr (hbusy s0.flag_reads))
    have hadv := advance_eq cfg hend s0.flash_ptr c.2 hb2 hc.2
    refine ⟨s, ?_, ?_⟩
    · rw [writeAll_append, hr0, Option.some_bind]
      simp only [writeAll]
      rw [h0]
      rfl
    · intro hne
      rw [land_low] at hne
      have hnw : ¬ (s0.flash_ptr + c.2 ≥ cfg.BLACKBOX_START_ADDR + cfg.BLACKBOX_SIZE) := by
        intro hge
        rw [hadv, if_pos hge] at hptr
        rw [hptr] at hne
        exact hne hs
      rw [hadv, if_neg hnw] at hptr
      have hp : s.flash_ptr < U32 := by unfold U32 at *; omega
      have hmask := land_mask s.flash_ptr hp
      refine ⟨?_, ?_, ?_, prev, c.1, c.2, s0, r0, rfl, hr0, htr, ?_, ?_⟩
      · intro d2 len2
        obtain ⟨s2, r, h2, _, _, _, _, ht2⟩ :=
          flash_returns cfg hal fuel s d2 len2 hp (Or.inr (hbusy s.flag_reads))
        refine ⟨s2, r, h2, ?_⟩
        rw [ht2]
        simp [erasePrefix, hne]
      · rw [hmask]; omega
      · rw [hmask]; omega
      · omega
      · omega

/-- C16 at start-up on the default region after one 100-byte call, with a
device that is never busy. -/
theorem erase_hits_previous_write_witness :
    ∃ s, writeAll defaultConfig halOk 1 (init defaultConfig) [(encodeEntry 0, 100)] = some s ∧
      (s.flash_ptr &&& 0xFF ≠ 0 →
        (∀ (d2 : List Nat) (len2 : Nat), ∃ s2 r,
          flash_to_blackbox defaultConfig halOk 1 s d2 len2 = some s2 ∧
          s2.trace = s.trace ++
            (Event.command (eraseCmd (s.flash_ptr &&& 0xFFFFFF00)) ::
              List.replicate (r + 1) Event.busy_poll) ++
            [Event.command (programCmd s.flash_ptr len2), Event.transmit d2]) ∧
        s.flash_ptr &&& 0xFFFFFF00 ≤ s.flash_ptr - 1 ∧
        s.flash_ptr - 1 < (s.flash_ptr &&& 0xFFFFFF00) + 256 ∧
        ∃ prev d len s0 r0, [(encodeEntry 0, 100)] = prev ++ [(d, len)] ∧
          writeAll defaultConfig halOk 1 (init defaultConfig) prev = some s0 ∧
          s.trace = s0.trace ++ erasePrefix s0.flash_ptr r0 ++
            [Event.command (programCmd s0.flash_ptr len), Event.transmit d] ∧
          s0.flash_ptr ≤ s.flash_ptr - 1 ∧ s.flash_ptr - 1 < s0.flash_ptr + len) :=
  erase_hits_previous_write defaultConfig halOk 1 (by decide) (by decide) (by decide)
    (fun _ => ⟨0, by decide, rfl⟩) [(encodeEntry 0, 100)]
    (by intro c hc; simp only [List.mem_singleton] at hc; subst hc; exact ⟨by decide, by decide⟩)

theorem writeAll_cons (cfg : Config) (hal : Hal) (fuel : Nat) (s : State)
    (c : List Nat × Nat) (cs : List (List Nat × Nat)) :
    writeAll cfg hal fuel s (c :: cs) =
      (flash_to_blackbox cfg hal fuel s c.1 c.2).bind fun s1 => writeAll cfg hal fuel s1 cs :=
  rfl

theorem writeAll_one (cfg : Config) (hal : Hal) (fuel : Nat) (s : State)
    (c : List Nat × Nat) :
    writeAll cfg hal fuel s [c] = flash_to_blackbox cfg hal fuel s c.1 c.2 := by
  rw [writeAll_cons]
  cases flash_to_blackbox cfg hal fuel s c.1 c.2 with
  | none => rfl
  | some s1 => rfl

theorem writeAll_pages_no_wrap (cfg : Config) (hal : Hal) (fuel : Nat)
    (hend : cfg.BLACKBOX_START_ADDR + cfg.BLACKBOX_SIZE + 256 ≤ U32)
    (hbusy : ∀ k, ∃ m, m < fuel ∧ hal.busy (k + m) = false) (d : List Nat) :
    ∀ (k : Nat) (s : State),
      s.flash_ptr + 256 * k < cfg.BLACKBOX_START_ADDR + cfg.BLACKBOX_SIZE →
      ∃ s1, writeAll cfg hal fuel s (List.replicate k (d, 256)) = some s1 ∧
        s1.flash_ptr = s.flash_ptr + 256 * k := by
  intro k
  induction k with
  | zero => intro s _; exact ⟨s, rfl, rfl⟩
  | succ k ih =>
    intro s h
    have hp : s.flash_ptr < U32 := by unfold U32 at *; omega
    obtain ⟨s0, _, h0, hptr, _⟩ :=
      flash_returns cfg hal fuel s d 256 hp (Or.inr (hbusy s.flag_reads))
    rw [advance_eq cfg hend s.flash_ptr 256 (by omega) (le_refl _), if_neg (by omega)] at hptr
    obtain ⟨s1, h1, h2⟩ := ih s0 (by rw [hptr]; omega)
    refine ⟨s1, ?_, by rw [h2, hptr]; ring⟩
    simp only [List.replicate_succ, writeAll]
    rw [h0, Option.some_bind]
    exact h1

/-- C11, the code at the failing input: on the default region, after one call
with `len = 1` and 65535 calls with `len = 256` the cursor is 255 bytes before
the end of the region, and the next call with `len = 256`, which returns,
programs 256 bytes at 0x90FFFF01, one byte past the end 0x91000000. -/
theorem straddling_write_leaves_region :
    ∃ s, writeAll defaultConfig halOk 1 (init defaultConfig)
        ((encodeEntry 0, 1) ::
          (List.replicate 65535 (encodeEntry 0, 256) ++ [(encodeEntry 0, 256)])) = some s ∧
      Event.command (programCmd 0x90FFFF01 256) ∈ s.trace ∧
      (programCmd 0x90FFFF01 256).Address + (programCmd 0x90FFFF01 256).NbData >
        defaultConfig.BLACKBOX_START_ADDR + defaultConfig.BLACKBOX_SIZE := by
  have hend : defaultConfig.BLACKBOX_START_ADDR + defaultConfig.BLACKBOX_SIZE + 256 ≤ U32 := by
    decide
  have hbusy : ∀ k, ∃ m, m < 1 ∧ halOk.busy (k + m) = false := fun _ => ⟨0, by decide, rfl⟩
  have h0 := flash_aligned defaultConfig halOk 1 (init defaultConfig) (encodeEntry 0) 1
    (by decide) (by decide)
  have hadv : advance defaultConfig (init defaultConfig).flash_ptr 1 = 0x90000001 := by decide
  rw [hadv] at h0
  obtain ⟨sb, hb, hbp⟩ := writeAll_pages_no_wrap defaultConfig halOk 1 hend hbusy (encodeEntry 0)
    65535
    { init defaultConfig with
      flash_ptr := 0x90000001
      hal_calls := (init defaultConfig).hal_calls + 2
      trace := (init defaultConfig).trace ++
        [Event.command (programCmd (init defaultConfig).flash_ptr 1),
          Event.transmit (encodeEntry 0)] }
    (by decide)
  have hbp2 : sb.flash_ptr = 0x90FFFF01 := by rw [hbp]
  obtain ⟨s, r, hs, _, _, _, _, ht⟩ := flash_returns defaultConfig halOk 1 sb (encodeEntry 0) 256
    (by rw [hbp2]; decide) (Or.inr (hbusy sb.flag_reads))
  refine ⟨s, ?_, ?_, by decide⟩
  · rw [writeAll_cons, h0, Option.some_bind, writeAll_append, hb, Option.some_bind,
      writeAll_one, hs]
  · rw [ht, hbp2]
    simp

/-! ## A BUSY flag that never clears -/

theorem waitWhileBusy_stuck (hal : Hal) (hb : ∀ k, hal.busy k = true) :
    ∀ (fuel : Nat) (s : State), waitWhileBusy hal fuel s = none := by
  intro fuel
  induction fuel with
  | zero => intro s; rfl
  | succ f ih =>
    intro s
    simp only [waitWhileBusy, hb, if_true]
    exact ih _

theorem flash_stuck (cfg : Config) (hal : Hal) (hb : ∀ k, hal.busy k = true) (fuel : Nat)
    (s : State) (data : List Nat) (len : Nat) (hp : s.flash_ptr < U32)
    (ha : s.flash_ptr % 256 ≠ 0) : flash_to_blackbox cfg hal fuel s data len = none := by
  have h : s.flash_ptr ≠ s.flash_ptr &&& 0xFFFFFF00 := (aligned_iff _ hp).2 ha
  unfold flash_to_blackbox
  simp only [h, ne_eq, not_false_eq_true, if_true]
  rw [waitWhileBusy_stuck hal hb]
  rfl

/-- C6 on a device whose BUSY flag never clears, from the cursor 0x90000001
inside the default region with `len = 256`: whatever the fuel, the call does
not return, so it never gets to its page program. -/
theorem stuck_flag_call_never_programs :
    (defaultConfig.BLACKBOX_START_ADDR ≤ offPageState.flash_ptr ∧
        offPageState.flash_ptr < defaultConfig.BLACKBOX_START_ADDR + defaultConfig.BLACKBOX_SIZE) ∧
      ∀ fuel, flash_to_blackbox defaultConfig halStuck fuel offPageState (encodeEntry 0) 256
        = none := by
  refine ⟨by decide, ?_⟩
  intro fuel
  exact flash_stuck defaultConfig halStuck (fun _ => rfl) fuel offPageState _ 256
    (by decide) (by decide)

/-- C19 on a device whose BUSY flag never clears, from a state with
`commit_idx = 0`, `write_idx = 1` and the cursor at 0x90000001: whatever the
fuel of the loop and of the poll, the drain loop does not return, and neither
does `blackbox_flush_task`. -/
theorem stuck_flag_drain_never_ends :
    (hangState.write_idx < 64 ∧ hangState.commit_idx < 64 ∧ pending hangState = 1) ∧
      (∀ pf fuel, flushLoop defaultConfig halStuck pf fuel hangState hangState.commit_idx
        = none) ∧
      ∀ fuel, blackbox_flush_task defaultConfig halStuck fuel hangState = none := by
  have hloop : ∀ pf fuel,
      flushLoop defaultConfig halStuck pf fuel hangState hangState.commit_idx = none := by
    intro pf fuel
    have hne : hangState.commit_idx ≠ hangState.write_idx := by decide
    cases fuel with
    | zero => simp [flushLoop, hne]
    | succ f =>
      simp only [flushLoop, hne, ne_eq, not_false_eq_true, if_true]
      rw [flash_stuck defaultConfig halStuck (fun _ => rfl) pf hangState _ _
        (by decide) (by decide)]
      rfl
  exact ⟨by decide, hloop, fun fuel => hloop fuel fuel⟩

end Blackbox
